import Mathlib

/-!
# Asset packer (`src/main.c`): shallow embedding and verified properties

The three stages of the packer are embedded as pure functions over an explicit
file-system environment:

* `ParseConfig`  : the line-oriented config reader (`fgets` / `sscanf` loop),
* `CreatePacker` : offset bookkeeping and assembly of the pack file,
* `CreateHeader` : generation of the C header with the enum and the table,

together with the helper `SanitizeName` and the driver `main`.

Conventions
* C strings are `List Char` (the characters before the terminating NUL).
* Binary file contents are `List UInt8`.
* `size_t` is 64 bits wide: values are naturals, arithmetic on them is reduced
  modulo `SIZE_T_MOD = 2 ^ 64` exactly where the C code computes.
* The environment is a record of oracles `FileSystem`; its answers are fixed for
  the duration of one call (source files are not rewritten while the tool runs and
  the output file is not one of its own inputs).  Writes to an opened output file
  always succeed (the C code ignores the results of `fwrite` and `fprintf`).
-/

set_option autoImplicit false
set_option maxRecDepth 100000

namespace Packer

/-! ## Constants of `main.c` -/

def MAGIC_NUMBER : Nat := 0x4E584150
def VERSION : Nat := 1
def MAX_ASSETS : Nat := 512
def MAX_NAME : Nat := 128
def MAX_CHARSET : Nat := 128
def MAX_FILENAME : Nat := 256
def MAX_PATH : Nat := 256

/-- Number of values of `size_t` (64-bit target). -/
def SIZE_T_MOD : Nat := 2 ^ 64

/-- The `asset_entry_t` record: `name` and `path` are the C strings held in the two
character arrays, `offset` and `size` the two `size_t` fields. -/
structure asset_entry_t where
  name : List Char
  path : List Char
  offset : Nat
  size : Nat
  deriving DecidableEq, Repr

/-- The environment seen by the tool.
* `fopen_r p`  : text delivered by reading the file opened with `fopen(p, "r")`,
  `none` when the open fails;
* `stat p`     : `st_size` reported by `stat(p, &st)` (a non-negative `off_t`, hence
  already a valid `size_t`), `none` when `stat` fails;
* `fopen_rb p` : bytes delivered by the `fread` loop on `fopen(p, "rb")`, `none`
  when the open fails;
* `fopen_w p`  : whether `fopen(p, "w")` / `fopen(p, "wb")` succeeds. -/
structure FileSystem where
  fopen_r : List Char → Option (List Char)
  stat : List Char → Option Nat
  fopen_rb : List Char → Option (List UInt8)
  fopen_w : List Char → Bool

/-! ## Pack assembler (`CreatePacker`) -/

/-- Bytes stored by `fwrite(&v, sizeof(uint32_t), 1, f)` for a `uint32_t` value, in the
native (little-endian) byte order. -/
def fwrite_u32 (v : Nat) : List UInt8 :=
  [UInt8.ofNat (v % 256), UInt8.ofNat (v / 256 % 256),
   UInt8.ofNat (v / 65536 % 256), UInt8.ofNat (v / 16777216 % 256)]

/-- One call `fread(buffer, 1, n, f)` on the unread part of a file:
the bytes placed in the buffer and the part still unread. -/
def fread (n : Nat) (unread : List UInt8) : List UInt8 × List UInt8 :=
  (unread.take n, unread.drop n)

/-- The copy loop
`while ((bytes_read = fread(buffer, 1, sizeof(buffer), asset_file)) > 0) fwrite(...)`
with `sizeof(buffer) = 4096`.  `out` is what the pack file holds so far.  The first
argument bounds the number of iterations; `unread.length` iterations are always
enough (`copy_loop_eq`). -/
def copy_loop : Nat → List UInt8 → List UInt8 → List UInt8
  | 0, _, out => out
  | fuel + 1, unread, out =>
    let r := fread 4096 unread
    if r.1.length > 0 then copy_loop fuel r.2 (out ++ r.1) else out

/-- Result of `CreatePacker`: the return value, the descriptor array after the call,
the bytes of the pack file (`none` when it was not created) and the paths of the
`FILE*` handles opened by the call that are still open when it returns. -/
structure PackResult where
  ret : Bool
  assets : List asset_entry_t
  pack_file : Option (List UInt8)
  unclosed : List (List Char)

/-- The `for` loop of `CreatePacker` over the descriptors still to process.
`total_size` is the running `size_t` counter and `out` the bytes written so far. -/
def CreatePacker_loop (fs : FileSystem) (pack_filename : List Char) :
    List asset_entry_t → Nat → List UInt8 → PackResult
  | [], _, out => ⟨true, [], some out, []⟩
  | asset :: rest, total_size, out =>
    let asset1 := { asset with offset := total_size }
    let total_size1 := (total_size + asset.size) % SIZE_T_MOD
    match fs.fopen_rb asset.path with
    | none => ⟨false, asset1 :: rest, some out, []⟩
    | some content =>
      let out1 := copy_loop content.length content out
      let r := CreatePacker_loop fs pack_filename rest total_size1 out1
      ⟨r.ret, asset1 :: r.assets, r.pack_file, r.unclosed⟩

/-- Result of `snprintf(buf, MAX_PATH, "%s<ext>", output_name)`. -/
def snprintf_name (output_name ext : List Char) : List Char :=
  (output_name ++ ext).take (MAX_PATH - 1)

/-- The function `CreatePacker(assets, asset_count, output_name)`; `assets` is the list
of the first `asset_count` entries of the array. -/
def CreatePacker (fs : FileSystem) (assets : List asset_entry_t)
    (output_name : List Char) : PackResult :=
  let pack_filename := snprintf_name output_name ".gen.nxap".toList
  if fs.fopen_w pack_filename then
    let magic_number := MAGIC_NUMBER
    let version := VERSION
    let offset := 4 + 4
    let out := fwrite_u32 magic_number ++ fwrite_u32 version
    CreatePacker_loop fs pack_filename assets offset out
  else
    ⟨false, assets, none, []⟩

/-! ## Config parser (`ParseConfig`) -/

/-- Characters stored by `fgets` when at most `k` characters may still be stored:
reading stops after `k` characters, after a newline (which is stored) or at end of
file.  The result is the stored characters and the part of the file still unread. -/
def fgets_read : Nat → List Char → List Char × List Char
  | 0, unread => ([], unread)
  | _ + 1, [] => ([], [])
  | k + 1, c :: cs =>
    if c = '\n' then ([c], cs)
    else ((fgets_read k cs).1.cons c, (fgets_read k cs).2)

/-- One call `fgets(line, n, f)`: `none` is the `NULL` returned at end of file,
otherwise the characters stored in `line` and the part of the file still unread. -/
def fgets (n : Nat) (unread : List Char) : Option (List Char × List Char) :=
  if unread = [] then none else some (fgets_read (n - 1) unread)

/-- The C string held by a buffer: its characters up to the first NUL. -/
def c_str (buf : List Char) : List Char :=
  buf.takeWhile (fun c => c != Char.ofNat 0)

/-- The function `isspace` of the C locale. -/
def isspace (c : Char) : Bool :=
  c == ' ' || c == '\t' || c == '\n' || c == Char.ofNat 11 || c == Char.ofNat 12 || c == '\r'

/-- The `%s` conversion of `sscanf`: white space is skipped, then the longest run of
non-white-space characters is stored.  `none` is the input failure at the end of the
string; otherwise the token and the input after it. -/
def scan_s (input : List Char) : Option (List Char × List Char) :=
  if input.dropWhile isspace = [] then none
  else some ((input.dropWhile isspace).takeWhile (fun c => !isspace c),
             (input.dropWhile isspace).dropWhile (fun c => !isspace c))

/-- Matching of the ordinary characters of a format against the input: the input left
after them, or the value `sscanf` returns when no conversion has been done yet
(`-1` = `EOF` at the end of the input, `0` on a mismatch). -/
def scan_literal : List Char → List Char → Except Int (List Char)
  | [], input => .ok input
  | _ :: _, [] => .error (-1)
  | f :: fmt, c :: cs => if f = c then scan_literal fmt cs else .error 0

/-- Effect of `sscanf(line, "%s", cmd)` on `cmd`: the first token of the line, or the
previous content of `cmd` when the line holds no token (nothing is assigned and the
return value is not looked at by the caller). -/
def sscanf_s (line cmd : List Char) : List Char :=
  match scan_s line with
  | some r => r.1
  | none => cmd

/-- Outcome of `sscanf(line, "PACKER %s %s", filename, name)`: the returned count and the
two strings (a string that was not assigned is reported as `[]`; the caller reads them
only when the count is 2). -/
structure ScanResult where
  ret : Int
  filename : List Char
  name : List Char
  deriving DecidableEq, Repr

/-- The call `sscanf(line, "PACKER %s %s", filename, name)`.  The blanks of the format
skip any amount of white space (also none), which `%s` does anyway. -/
def sscanf_PACKER (line : List Char) : ScanResult :=
  match scan_literal "PACKER".toList line with
  | .error e => ⟨e, [], []⟩
  | .ok rest =>
    match scan_s rest with
    | none => ⟨-1, [], []⟩
    | some r1 =>
      match scan_s r1.2 with
      | none => ⟨1, r1.1, []⟩
      | some r2 => ⟨2, r1.1, r2.1⟩

/-- Result of `ParseConfig`: the return value, the descriptors stored in the array
(`*asset_count` is the length of this list) and the paths of the `FILE*` handles
opened by the call that are still open when it returns. -/
structure ParseResult where
  ret : Bool
  assets : List asset_entry_t
  unclosed : List (List Char)
  deriving DecidableEq, Repr

/-- The `while (fgets(line, sizeof(line), f))` loop of `ParseConfig`.
Arguments: a bound on the number of iterations (the number of unread characters is
always enough, see `ParseConfig_loop_fuel`), the unread part of the file, the content
of the buffer `cmd` (it is not initialised by the C code and keeps its bytes from one
iteration to the next) and the descriptors stored so far.  The descriptor array is the
zero-initialised global of `main.c`, so an `offset` the parser never writes is 0. -/
def ParseConfig_loop (fs : FileSystem) (config : List Char) :
    Nat → List Char → List Char → List asset_entry_t → ParseResult
  | 0, _, _, assets => ⟨decide (assets.length > 0), assets, []⟩
  | fuel + 1, unread, cmd, assets =>
    match fgets MAX_CHARSET unread with
    | none => ⟨decide (assets.length > 0), assets, []⟩
    | some r =>
      let line := c_str r.1
      let c0 := line.headD (Char.ofNat 0)
      if c0 = Char.ofNat 0 ∨ c0 = '#' ∨ c0 = '\r' ∨ c0 = '\n' then
        ParseConfig_loop fs config fuel r.2 cmd assets
      else
        let cmd1 := sscanf_s line cmd
        if cmd1.take 6 = "PACKER".toList then
          let sc := sscanf_PACKER line
          if sc.ret = 2 then
            if assets.length < MAX_ASSETS then
              let path := sc.filename.take (MAX_PATH - 1)
              let asset : asset_entry_t :=
                { name := sc.name.take (MAX_NAME - 1)
                  path := path
                  offset := 0
                  size := match fs.stat path with
                    | none => 0
                    | some st_size => st_size }
              ParseConfig_loop fs config fuel r.2 cmd1 (assets ++ [asset])
            else
              ⟨false, assets, [config]⟩
          else
            ⟨false, assets, [config]⟩
        else
          ParseConfig_loop fs config fuel r.2 cmd1 assets

/-- The function `ParseConfig(config, assets, asset_count)`.  `cmd0` stands for the
indeterminate initial bytes of the local buffer `cmd`.  When the config file cannot be
opened nothing is stored (`*asset_count` keeps the 0 given by `main`). -/
def ParseConfig (fs : FileSystem) (cmd0 : List Char) (config : List Char) : ParseResult :=
  match fs.fopen_r config with
  | none => ⟨false, [], []⟩
  | some text => ParseConfig_loop fs config text.length text cmd0 []

/-! ## Name sanitizer (`SanitizeName`) -/

/-- The function `strrchr(s, c)` for a character `c` other than NUL: the suffix of `s`
that starts at the last occurrence of `c`, `none` when `c` does not occur. -/
def strrchr : List Char → Char → Option (List Char)
  | [], _ => none
  | x :: xs, c =>
    match strrchr xs c with
    | some r => some r
    | none => if x = c then some (x :: xs) else none

/-- The `for (i = 0; i < len && j < MAX_NAME - 1; i++)` loop of `SanitizeName`: the
characters of `basename` still to scan and the characters stored in `out_name` so far
(`j` is the length of that list). -/
def SanitizeName_loop : List Char → List Char → List Char
  | [], out => out
  | c :: cs, out =>
    if out.length < MAX_NAME - 1 then
      if c.isAlphanum then SanitizeName_loop cs (out ++ [c.toUpper])
      else if c = '-' ∨ c = ' ' ∨ c = '.' then SanitizeName_loop cs (out ++ ['_'])
      else SanitizeName_loop cs out
    else out

/-- The function `SanitizeName(filename, out_name)`: the string left in `out_name`. -/
def SanitizeName (filename : List Char) : List Char :=
  let basename0 := match strrchr filename '/' with
    | some r => some r
    | none => strrchr filename '\\'
  let basename := match basename0 with
    | some r => r.drop 1
    | none => filename
  SanitizeName_loop basename []

/-! ## Table generator (`CreateHeader`) -/

/-- Decimal digits of a natural number. -/
def fmt_u (v : Nat) : List Char := (Nat.repr v).toList

/-- The conversion `%zu` applied to a `size_t` value. -/
def fmt_zu (v : Nat) : List Char := fmt_u v

/-- The conversion `%d` applied to a 64-bit argument: `printf` reads its low 32 bits as
a signed `int`. -/
def fmt_d (v : Nat) : List Char :=
  if v % 2 ^ 32 < 2 ^ 31 then fmt_u (v % 2 ^ 32) else '-' :: fmt_u (2 ^ 32 - v % 2 ^ 32)

/-- The conversion `%lld` applied to a `size_t` argument: its 64 bits read as a signed
`long long`. -/
def fmt_lld (v : Nat) : List Char :=
  if v % 2 ^ 64 < 2 ^ 63 then fmt_u (v % 2 ^ 64) else '-' :: fmt_u (2 ^ 64 - v % 2 ^ 64)

/-- The conversion `%08X` applied to a `uint32_t`: upper-case hexadecimal, padded with
zeros to 8 digits. -/
def fmt_08X (v : Nat) : List Char :=
  let ds := (Nat.toDigits 16 (v % 2 ^ 32)).map Char.toUpper
  List.replicate (8 - ds.length) '0' ++ ds

/-- Text written by the first `fprintf` of `CreateHeader`. -/
def header_prologue (asset_count : Nat) : List Char :=
  "// Auto-generated asset pack - DO NOT EDIT!\n".toList ++
  "// Generated by packer tool\n".toList ++
  "// Total assets: ".toList ++ fmt_lld asset_count ++ "\n\n".toList ++
  "#pragma once\n\n".toList ++
  "#include <stdint.h>\n\n".toList ++
  "#define PACKER_MAGIC 0x".toList ++ fmt_08X MAGIC_NUMBER ++ "\n".toList ++
  "#define PACKER_VERSION ".toList ++ fmt_d VERSION ++ "\n\n".toList ++
  "typedef enum\n\x7b\n".toList

/-- Text written by `fprintf(header_file, "    ASSET_%s = %d,\n", assets[i].name, i)`. -/
def enum_entry (name : List Char) (i : Nat) : List Char :=
  "    ASSET_".toList ++ name ++ " = ".toList ++ fmt_d i ++ ",\n".toList

/-- Text written by the `fprintf` between the two loops of `CreateHeader`. -/
def header_middle (asset_count : Nat) : List Char :=
  "    ASSET_COUNT = ".toList ++ fmt_lld asset_count ++ "\n".toList ++
  "\x7d asset_id;\n\n".toList ++
  "typedef struct\n\x7b\n".toList ++
  "    size_t offset;\n".toList ++
  "    size_t size;\n".toList ++
  "\x7d asset_t;\n\n".toList ++
  "static asset_t ASSET_TABLE[] = \x7b\n".toList

/-- Text written by
`fprintf(header_file, "    [ASSET_%s] = {.offset = %zu, .size = %zu},\n", ...)`. -/
def table_entry (a : asset_entry_t) : List Char :=
  "    [ASSET_".toList ++ a.name ++ "] = \x7b.offset = ".toList ++ fmt_zu a.offset ++
  ", .size = ".toList ++ fmt_zu a.size ++ "\x7d,\n".toList

/-- The first `for` loop of `CreateHeader`: descriptors still to print, the index `i`
and the text written so far. -/
def CreateHeader_enum_loop : List asset_entry_t → Nat → List Char → List Char
  | [], _, out => out
  | a :: rest, i, out => CreateHeader_enum_loop rest (i + 1) (out ++ enum_entry a.name i)

/-- The second `for` loop of `CreateHeader`. -/
def CreateHeader_table_loop : List asset_entry_t → List Char → List Char
  | [], out => out
  | a :: rest, out => CreateHeader_table_loop rest (out ++ table_entry a)

/-- Result of `CreateHeader`: the return value, the text of the generated header (`none`
when the file was not created) and the handles left open. -/
structure HeaderResult where
  ret : Bool
  header_file : Option (List Char)
  unclosed : List (List Char)
  deriving DecidableEq, Repr

/-- The function `CreateHeader(assets, asset_count, output_name)`. -/
def CreateHeader (fs : FileSystem) (assets : List asset_entry_t)
    (output_name : List Char) : HeaderResult :=
  let header_filename := snprintf_name output_name ".gen.h".toList
  if fs.fopen_w header_filename then
    let asset_count := assets.length
    let out0 := header_prologue asset_count
    let out1 := CreateHeader_enum_loop assets 0 out0
    let out2 := out1 ++ header_middle asset_count
    let out3 := CreateHeader_table_loop assets out2
    ⟨true, some (out3 ++ "\x7d;\n".toList), []⟩
  else
    ⟨false, none, []⟩

/-! ## Driver (`main`) -/

/-- The three stages run by `main`. -/
inductive Stage where
  | parse
  | pack
  | header
  deriving DecidableEq, Repr

/-- Result of `main`: the exit status, the stages that were run (in order) and the two
output files (`none` when the file was never opened for writing). -/
structure MainResult where
  status : Nat
  stages : List Stage
  pack_file : Option (List UInt8)
  header_file : Option (List Char)

/-- The function `main(argc, argv)`, with `argc = argv.length`. -/
def main (fs : FileSystem) (cmd0 : List Char) (argv : List (List Char)) : MainResult :=
  if argv.length ≠ 3 then ⟨1, [], none, none⟩
  else
    let parsed := ParseConfig fs cmd0 (argv.getD 1 [])
    if !parsed.ret then ⟨1, [Stage.parse], none, none⟩
    else
      let packed := CreatePacker fs parsed.assets (argv.getD 2 [])
      if !packed.ret then ⟨1, [Stage.parse, Stage.pack], packed.pack_file, none⟩
      else
        let hdr := CreateHeader fs packed.assets (argv.getD 2 [])
        if !hdr.ret then ⟨1, [Stage.parse, Stage.pack, Stage.header], packed.pack_file, none⟩
        else ⟨0, [Stage.parse, Stage.pack, Stage.header], packed.pack_file, hdr.header_file⟩

/-! ## Auxiliary definitions used in the statements -/

/-- Bytes streamed into the pack for a descriptor (nothing when its source cannot be
opened). -/
def source_bytes (fs : FileSystem) (a : asset_entry_t) : List UInt8 :=
  (fs.fopen_rb a.path).getD []

/-- The `size` fields of a descriptor list, in declaration order. -/
def sizes (l : List asset_entry_t) : List Nat := l.map (fun a => a.size)

/-- A file system in which every source opens and is empty when it is read. -/
def fs_empty_sources : FileSystem where
  fopen_r := fun _ => none
  stat := fun _ => none
  fopen_rb := fun _ => some []
  fopen_w := fun _ => true

/-- Three descriptors, the first two with the largest size an `off_t` can report. -/
def assets_huge : List asset_entry_t :=
  [⟨"A".toList, "a".toList, 0, 2 ^ 63 - 1⟩, ⟨"B".toList, "b".toList, 0, 2 ^ 63 - 1⟩,
   ⟨"C".toList, "c".toList, 0, 1⟩]

/-- A file system with one config `cfg` declaring the source `v`, for which `stat`
reports size 0 although three bytes are delivered when it is read (as for a file of
`/proc`, or a file that grew after the probe). -/
def fs_unsized : FileSystem where
  fopen_r := fun p => if p = "cfg".toList then some "PACKER v V\n".toList else none
  stat := fun p => if p = "v".toList then some 0 else none
  fopen_rb := fun p => if p = "v".toList then some [1, 2, 3] else none
  fopen_w := fun _ => true

/-- A file system whose only source `a` delivers three bytes. -/
def fs_three_bytes : FileSystem where
  fopen_r := fun _ => none
  stat := fun _ => none
  fopen_rb := fun p => if p = "a".toList then some [1, 2, 3] else none
  fopen_w := fun _ => true

/-- The example of the specification: the config `cfg` holds the single directive
`PACKER img/bg.png BACKGROUND` and `img/bg.png` is a file of 100 bytes. -/
def fs_background : FileSystem where
  fopen_r := fun p =>
    if p = "cfg".toList then some "PACKER img/bg.png BACKGROUND\n".toList else none
  stat := fun p => if p = "img/bg.png".toList then some 100 else none
  fopen_rb := fun p => if p = "img/bg.png".toList then some (List.replicate 100 7) else none
  fopen_w := fun _ => true

/-! ## Shapes of config lines used in the statements on the parser -/

/-- White space inside a line (the newline ends the line). -/
def is_blank (c : Char) : Bool := isspace c && c != '\n'

/-- Characters of a token of a directive: neither white space nor NUL. -/
def is_token_char (c : Char) : Bool := !isspace c && c != Char.ofNat 0

/-- Characters of the text of a line: neither the newline nor NUL. -/
def is_line_char (c : Char) : Bool := c != '\n' && c != Char.ofNat 0

/-- The first white-space-delimited token of a line (`[]` when there is none). -/
def first_token (l : List Char) : List Char :=
  (l.dropWhile isspace).takeWhile (fun c => !isspace c)

/-- The lines of a config file, without their newline.
* `skipped t`: a line that is empty or starts with `#` (a comment), with a carriage
  return or with NUL;
* `directive sep1 path sep2 ident trail`: the line `PACKER<sep1><path><sep2><ident><trail>`;
* `foreign t`: a line with some other first token. -/
inductive ConfigLine where
  | skipped (text : List Char)
  | directive (sep1 path sep2 ident trail : List Char)
  | foreign (text : List Char)
  deriving DecidableEq, Repr

/-- The characters of a line. -/
def ConfigLine.text : ConfigLine → List Char
  | .skipped t => t
  | .directive sep1 path sep2 ident trail =>
    "PACKER".toList ++ sep1 ++ path ++ sep2 ++ ident ++ trail
  | .foreign t => t

/-- Well-formedness of a line: it holds at most 126 characters, none of them a newline,
and
* a skipped line is empty or starts with `#`, a carriage return or NUL;
* in a directive the two separators are non-empty runs of blanks, the two tokens are
  non-empty and free of white space and NUL, and what follows the identifier is empty
  or starts with a blank (and is free of NUL);
* a foreign line is free of NUL, does not start with `#` or a carriage return, and has
  a first token that does not start with `PACKER`. -/
def ConfigLine.wf : ConfigLine → Bool
  | .skipped t =>
    t.all (fun c => c != '\n') && decide (t.length ≤ 126) &&
    (t.headD (Char.ofNat 0) == Char.ofNat 0 || t.headD (Char.ofNat 0) == '#' ||
      t.headD (Char.ofNat 0) == '\r')
  | .directive sep1 path sep2 ident trail =>
    !sep1.isEmpty && sep1.all is_blank && !path.isEmpty && path.all is_token_char &&
    !sep2.isEmpty && sep2.all is_blank && !ident.isEmpty && ident.all is_token_char &&
    trail.all is_line_char && is_blank (trail.headD ' ') &&
    decide ((ConfigLine.directive sep1 path sep2 ident trail).text.length ≤ 126)
  | .foreign t =>
    t.all is_line_char && decide (t.length ≤ 126) &&
    !(t.headD (Char.ofNat 0) == '#' || t.headD (Char.ofNat 0) == '\r') &&
    !(first_token t).isEmpty && (first_token t).take 6 != "PACKER".toList

/-- The lines of a config in the strict format: blank lines (empty, or a lone carriage
return), `#` comments and directives with exactly two tokens after the keyword. -/
def ConfigLine.strict : ConfigLine → Bool
  | .skipped t => t.isEmpty || t == ['\r'] || t.headD ' ' == '#'
  | .directive _ _ _ _ trail => trail.all is_blank
  | .foreign _ => false

/-- The descriptor a line stands for: a directive declares its identifier and its path,
with the size probed by `stat` (0 when the probe fails); other lines declare nothing. -/
def ConfigLine.descriptor (fs : FileSystem) : ConfigLine → List asset_entry_t
  | .directive _ path _ ident _ =>
    [{ name := ident, path := path, offset := 0,
       size := match fs.stat path with
         | none => 0
         | some st_size => st_size }]
  | _ => []

/-- The descriptors declared by a list of lines, in file order. -/
def declared (fs : FileSystem) (ls : List ConfigLine) : List asset_entry_t :=
  ls.flatMap (ConfigLine.descriptor fs)

/-- The text of a file whose lines all end with a newline. -/
def render_lines (ls : List ConfigLine) : List Char :=
  ls.flatMap (fun l => l.text ++ ['\n'])

/-- The text of a config file made of the given lines: every line ends with a newline,
except possibly the last one (`final_newline = false`). -/
def render_config (ls : List ConfigLine) (final_newline : Bool) : List Char :=
  if final_newline then render_lines ls else (render_lines ls).dropLast

/-- Whether a line is a directive. -/
def ConfigLine.is_directive : ConfigLine → Bool
  | .directive _ _ _ _ _ => true
  | _ => false

/-- Whether a line is a foreign line. -/
def ConfigLine.is_foreign : ConfigLine → Bool
  | .foreign _ => true
  | _ => false

/-- Number of directive lines. -/
def directive_count (ls : List ConfigLine) : Nat :=
  (ls.filter ConfigLine.is_directive).length

/-- A `PACKER` line with fewer than two tokens after the keyword:
`PACKER<sep1><tok><sep2>`, where `tok` is the only token (or is empty). -/
def short_directive (sep1 tok sep2 : List Char) : List Char :=
  "PACKER".toList ++ sep1 ++ tok ++ sep2

/-- Well-formedness of a short `PACKER` line: blanks around at most one token, which is
separated from the keyword, and at most 126 characters. -/
def short_directive_wf (sep1 tok sep2 : List Char) : Bool :=
  sep1.all is_blank && tok.all is_token_char && sep2.all is_blank &&
  (tok.isEmpty || !sep1.isEmpty) && decide ((short_directive sep1 tok sep2).length ≤ 126)

/-- A file system holding the config `cfg` with the given text; `stat` knows the source
`a` (5 bytes) and no other file. -/
def fs_config (text : List Char) : FileSystem where
  fopen_r := fun p => if p = "cfg".toList then some text else none
  stat := fun p => if p = "a".toList then some 5 else none
  fopen_rb := fun _ => none
  fopen_w := fun _ => true

/-- A config with a comment line of 137 characters followed by one directive. -/
def config_long_comment : List Char :=
  '#' :: List.replicate 126 ' ' ++ "PACKER x Y\nPACKER a A\n".toList

/-- A config in the strict format: a comment, two directives and an empty line. -/
def lines_strict : List ConfigLine :=
  [.skipped "# assets".toList, .directive " ".toList "a".toList " ".toList "A".toList [],
   .skipped [], .directive "\t".toList "img/b.png".toList "  ".toList "B".toList "\r".toList]

/-- A config with a line of an unknown keyword between a comment and a directive. -/
def lines_unknown : List ConfigLine :=
  [.skipped "# assets".toList, .foreign "FOO a b".toList,
   .directive " ".toList "a".toList " ".toList "A".toList []]

/-- A config with a directive carrying a third token. -/
def lines_extra : List ConfigLine :=
  [.directive " ".toList "a".toList " ".toList "A".toList " extra".toList]

/-! ## Definitions used in the statements on the name sanitizer -/

/-- The characters of a sanitized name: `A`-`Z`, `0`-`9` and `_`. -/
def is_code_char (c : Char) : Bool := c.isUpper || c.isDigit || c == '_'

/-- A path separator in the sense of the specification: `/` or `\`. -/
def is_separator (c : Char) : Bool := c == '/' || c == '\\'

/-- The reference treatment of one character: alphanumeric characters are upper-cased,
`-`, space and `.` become `_`, every other character is dropped. -/
def sanitize_char (c : Char) : Option Char :=
  if c.isAlphanum then some c.toUpper
  else if c = '-' ∨ c = ' ' ∨ c = '.' then some '_'
  else none

/-- The reference definition of the name sanitizer, written from the words of the
specification: the suffix after the last path separator (either slash), each character
treated by `sanitize_char`, the first 127 characters kept. -/
def SanitizeName_reference (s : List Char) : List Char :=
  (((s.reverse.takeWhile (fun c => !is_separator c)).reverse).filterMap sanitize_char).take
    (MAX_NAME - 1)

/-! ## Further inputs and shapes used in the statements -/

/-- Three descriptors with the sources `a`, `b` and `c`. -/
def assets_abc : List asset_entry_t :=
  [⟨"A".toList, "a".toList, 0, 3⟩, ⟨"B".toList, "b".toList, 0, 4⟩,
   ⟨"C".toList, "c".toList, 0, 5⟩]

/-- The file system `fs_three_bytes` in which the source `c` has appeared. -/
def fs_three_bytes_c : FileSystem where
  fopen_r := fun _ => none
  stat := fun _ => none
  fopen_rb := fun p =>
    if p = "a".toList then some [1, 2, 3] else if p = "c".toList then some [9] else none
  fopen_w := fun _ => true

/-- The identifier tokens of the directive lines, in file order. -/
def identifiers (ls : List ConfigLine) : List (List Char) :=
  ls.flatMap (fun l =>
    match l with
    | .directive _ _ _ ident _ => [ident]
    | _ => [])

/-- A directive line whose path token has 256 characters. -/
def config_long_path : List Char :=
  "PACKER ".toList ++ List.replicate 256 'p' ++ " ID\n".toList

/-- A directive line whose identifier token has 130 characters. -/
def config_long_identifier : List Char :=
  "PACKER a ".toList ++ List.replicate 130 'X' ++ "\n".toList

/-- Text that stops at a line boundary: it is empty or ends with a newline. -/
def ends_line (seg : List Char) : Bool := seg.isEmpty || seg.getLast? == some '\n'

/-- A config text in which each of the given lines, ended by a newline, is preceded by
some text that stops at a line boundary. -/
def interleave (blocks : List (List Char × ConfigLine)) : List Char :=
  blocks.flatMap (fun b => b.1 ++ b.2.text ++ ['\n'])

/-- The directive line `PACKER a A`. -/
def directive_a : ConfigLine :=
  .directive " ".toList "a".toList " ".toList "A".toList []

/-- A config with 513 lines `PACKER a A`. -/
def config_513 : List Char :=
  interleave (List.replicate 512 ([], directive_a)) ++
    ([] ++ (directive_a.text ++ ['\n'] ++ []))

/-- A config with 512 lines `PACKER a A`. -/
def config_512 : List Char :=
  render_config (List.replicate 512 directive_a) true

/-! # Verified properties -/

/-! ## Lemmas on the pack assembler -/

theorem copy_loop_eq (fuel : Nat) (unread out : List UInt8) (h : unread.length ≤ fuel) :
    copy_loop fuel unread out = out ++ unread := by
  induction fuel generalizing unread out with
  | zero =>
    have : unread = [] := List.length_eq_zero.mp (Nat.le_zero.mp h)
    simp [copy_loop, this]
  | succ n ih =>
    cases unread with
    | nil => simp [copy_loop, fread]
    | cons b bs =>
      have hlen : (List.drop 4096 (b :: bs)).length ≤ n := by
        simp only [List.length_drop, List.length_cons] at h ⊢
        omega
      simp only [copy_loop, fread]
      rw [if_pos (by simp), ih _ _ hlen, List.append_assoc, List.take_append_drop]

theorem CreatePacker_loop_length (fs : FileSystem) (pf : List Char) (l : List asset_entry_t)
    (t : Nat) (out : List UInt8) :
    (CreatePacker_loop fs pf l t out).assets.length = l.length := by
  induction l generalizing t out with
  | nil => simp [CreatePacker_loop]
  | cons a rest ih =>
    simp only [CreatePacker_loop]
    cases h : fs.fopen_rb a.path with
    | none => simp
    | some content => simp [ih]

theorem CreatePacker_loop_ret (fs : FileSystem) (pf : List Char) (l : List asset_entry_t)
    (t : Nat) (out : List UInt8) :
    (CreatePacker_loop fs pf l t out).ret = true ↔ ∀ a ∈ l, fs.fopen_rb a.path ≠ none := by
  induction l generalizing t out with
  | nil => simp [CreatePacker_loop]
  | cons a rest ih =>
    simp only [CreatePacker_loop]
    cases h : fs.fopen_rb a.path with
    | none => simp [h]
    | some content => simp [h, ih]

theorem CreatePacker_loop_pack_file (fs : FileSystem) (pf : List Char)
    (l : List asset_entry_t) (t : Nat) (out : List UInt8)
    (hopen : ∀ a ∈ l, fs.fopen_rb a.path ≠ none) :
    (CreatePacker_loop fs pf l t out).pack_file = some (out ++ l.flatMap (source_bytes fs)) := by
  induction l generalizing t out with
  | nil => simp [CreatePacker_loop]
  | cons a rest ih =>
    simp only [CreatePacker_loop]
    cases h : fs.fopen_rb a.path with
    | none => exact absurd h (hopen a (List.mem_cons_self _ _))
    | some content =>
      have hrest : ∀ b ∈ rest, fs.fopen_rb b.path ≠ none :=
        fun b hb => hopen b (List.mem_cons_of_mem _ hb)
      simp [ih _ _ hrest, copy_loop_eq, source_bytes, h]

theorem CreatePacker_loop_offset (fs : FileSystem) (pf : List Char) (l : List asset_entry_t)
    (t : Nat) (out : List UInt8) (ht : t < SIZE_T_MOD)
    (hret : (CreatePacker_loop fs pf l t out).ret = true) (i : Nat) (a : asset_entry_t)
    (hi : l[i]? = some a) :
    (CreatePacker_loop fs pf l t out).assets[i]? =
      some { a with offset := (t + (sizes (l.take i)).sum) % SIZE_T_MOD } := by
  induction l generalizing t out i with
  | nil => simp at hi
  | cons b rest ih =>
    simp only [CreatePacker_loop] at hret ⊢
    cases h : fs.fopen_rb b.path with
    | none => simp [h] at hret
    | some content =>
      simp only [h] at hret ⊢
      cases i with
      | zero =>
        simp only [List.getElem?_cons_zero, Option.some.injEq] at hi
        simp [← hi, sizes, Nat.mod_eq_of_lt ht]
      | succ j =>
        simp only [List.getElem?_cons_succ] at hi
        have hlt : (t + b.size) % SIZE_T_MOD < SIZE_T_MOD := Nat.mod_lt _ (by decide)
        rw [List.getElem?_cons_succ, ih _ _ hlt hret j hi]
        simp only [sizes, List.take_succ_cons, List.map_cons, List.sum_cons, Option.some.injEq]
        congr 1
        rw [Nat.add_mod, Nat.mod_mod, ← Nat.add_mod, Nat.add_assoc]

theorem CreatePacker_created (fs : FileSystem) (assets : List asset_entry_t)
    (output_name : List Char)
    (h : fs.fopen_w (snprintf_name output_name ".gen.nxap".toList) = true) :
    CreatePacker fs assets output_name =
      CreatePacker_loop fs (snprintf_name output_name ".gen.nxap".toList) assets 8
        (fwrite_u32 MAGIC_NUMBER ++ fwrite_u32 VERSION) :=
  if_pos h

theorem CreatePacker_not_created (fs : FileSystem) (assets : List asset_entry_t)
    (output_name : List Char)
    (h : ¬ fs.fopen_w (snprintf_name output_name ".gen.nxap".toList) = true) :
    CreatePacker fs assets output_name = ⟨false, assets, none, []⟩ :=
  if_neg h

theorem CreatePacker_ret_created (fs : FileSystem) (assets : List asset_entry_t)
    (output_name : List Char) (hret : (CreatePacker fs assets output_name).ret = true) :
    fs.fopen_w (snprintf_name output_name ".gen.nxap".toList) = true := by
  by_contra hw
  rw [CreatePacker_not_created fs assets output_name hw] at hret
  exact Bool.false_ne_true hret

/-- On success the pack assembler has stamped descriptor `i` with the running counter:
every other field is the one it was given. -/
theorem CreatePacker_assets_get (fs : FileSystem) (assets : List asset_entry_t)
    (output_name : List Char) (hret : (CreatePacker fs assets output_name).ret = true)
    (i : Nat) (a : asset_entry_t) (hi : assets[i]? = some a) :
    (CreatePacker fs assets output_name).assets[i]? =
      some { a with offset := (8 + (sizes (assets.take i)).sum) % SIZE_T_MOD } := by
  have hw := CreatePacker_ret_created fs assets output_name hret
  rw [CreatePacker_created fs assets output_name hw] at hret ⊢
  exact CreatePacker_loop_offset fs _ assets 8 _ (by decide) hret i a hi

/-- On success every source could be opened and the pack file is the header followed by
the streamed sources. -/
theorem CreatePacker_success (fs : FileSystem) (assets : List asset_entry_t)
    (output_name : List Char) (hret : (CreatePacker fs assets output_name).ret = true) :
    (∀ a ∈ assets, fs.fopen_rb a.path ≠ none) ∧
    (CreatePacker fs assets output_name).pack_file =
      some (fwrite_u32 MAGIC_NUMBER ++ fwrite_u32 VERSION ++
        assets.flatMap (source_bytes fs)) := by
  have hw := CreatePacker_ret_created fs assets output_name hret
  rw [CreatePacker_created fs assets output_name hw] at hret ⊢
  have hopen := (CreatePacker_loop_ret fs _ assets _ _).mp hret
  exact ⟨hopen, CreatePacker_loop_pack_file fs _ assets _ _ hopen⟩

theorem flatMap_drop_prefix {α β : Type} (f : α → List β) (l : List α) (i : Nat) :
    (l.flatMap f).drop (((l.take i).map (fun a => (f a).length)).sum) =
      (l.drop i).flatMap f := by
  induction l generalizing i with
  | nil => simp
  | cons a rest ih =>
    cases i with
    | zero => simp
    | succ j =>
      simp only [List.take_succ_cons, List.map_cons, List.sum_cons, List.flatMap_cons,
        List.drop_succ_cons]
      rw [← List.drop_drop, List.drop_left, ih]

theorem sizes_eq_lengths (fs : FileSystem) (l : List asset_entry_t)
    (h : ∀ b ∈ l, b.size = (source_bytes fs b).length) :
    sizes l = l.map (fun a => (source_bytes fs a).length) := by
  unfold sizes
  exact List.map_congr_left h

theorem header_length : (fwrite_u32 MAGIC_NUMBER ++ fwrite_u32 VERSION).length = 8 := by
  decide

theorem length_flatMap_sum {α β : Type} (f : α → List β) (l : List α) :
    (l.flatMap f).length = (l.map (fun a => (f a).length)).sum := by
  induction l with
  | nil => simp
  | cons a rest ih => simp [ih]

theorem sizes_take_succ (l : List asset_entry_t) (i : Nat) (a : asset_entry_t)
    (hi : l[i]? = some a) :
    (sizes (l.take (i + 1))).sum = (sizes (l.take i)).sum + a.size := by
  simp [sizes, List.take_succ, hi]

/-- Round trip on an arbitrary descriptor list: when the sizes of the descriptors up to
`i` are the lengths of the streamed sources and the offset of `i` did not wrap, the
slice of the pack designated by descriptor `i` is its source. -/
theorem CreatePacker_slice (fs : FileSystem) (assets : List asset_entry_t)
    (output_name : List Char) (i : Nat) (b : asset_entry_t)
    (hret : (CreatePacker fs assets output_name).ret = true)
    (hb : (CreatePacker fs assets output_name).assets[i]? = some b)
    (hsize : ∀ c ∈ assets.take (i + 1), c.size = (source_bytes fs c).length)
    (hfit : 8 + (sizes (assets.take i)).sum < SIZE_T_MOD) :
    ∃ pack, (CreatePacker fs assets output_name).pack_file = some pack ∧
      (pack.drop b.offset).take b.size = source_bytes fs b := by
  have hw := CreatePacker_ret_created fs assets output_name hret
  have hlen : i < assets.length := by
    have h1 := (List.getElem?_eq_some.mp hb).1
    rw [CreatePacker_created fs assets output_name hw, CreatePacker_loop_length] at h1
    exact h1
  have ha : assets[i]? = some assets[i] := List.getElem?_eq_getElem hlen
  have hget := CreatePacker_assets_get fs assets output_name hret i _ ha
  rw [hb] at hget
  have hbeq := Option.some.inj hget
  refine ⟨_, (CreatePacker_success fs assets output_name hret).2, ?_⟩
  have hmem : assets[i] ∈ assets.take (i + 1) := by
    apply List.mem_iff_getElem?.mpr
    exact ⟨i, by rw [List.getElem?_take_of_lt (Nat.lt_succ_self i)]; exact ha⟩
  have hpre : ∀ c ∈ assets.take i, c.size = (source_bytes fs c).length := by
    intro c hc
    apply hsize c
    rw [List.take_succ]
    exact List.mem_append_left _ hc
  have hoff : b.offset = 8 + ((assets.take i).map (fun a => (source_bytes fs a).length)).sum := by
    rw [hbeq]
    simp only
    rw [Nat.mod_eq_of_lt hfit, sizes_eq_lengths fs _ hpre]
  have hsz : b.size = (source_bytes fs assets[i]).length := by
    have h := hsize _ hmem
    rw [hbeq]; exact h
  have hsrc : source_bytes fs b = source_bytes fs assets[i] := by
    rw [hbeq]; rfl
  rw [hoff, hsz, hsrc, ← header_length, ← List.drop_drop, List.drop_left, flatMap_drop_prefix,
    List.drop_eq_getElem_cons hlen, List.flatMap_cons, List.take_left]

/-! ## Lemmas on the table generator -/

theorem CreateHeader_enum_loop_eq (l : List asset_entry_t) (i : Nat) (out : List Char) :
    CreateHeader_enum_loop l i out =
      out ++ ((l.enumFrom i).map (fun p => enum_entry p.2.name p.1)).flatten := by
  induction l generalizing i out with
  | nil => simp [CreateHeader_enum_loop]
  | cons a rest ih =>
    simp [CreateHeader_enum_loop, ih, List.enumFrom_cons, List.append_assoc]

theorem CreateHeader_table_loop_eq (l : List asset_entry_t) (out : List Char) :
    CreateHeader_table_loop l out = out ++ (l.map table_entry).flatten := by
  induction l generalizing out with
  | nil => simp [CreateHeader_table_loop]
  | cons a rest ih => simp [CreateHeader_table_loop, ih, List.append_assoc]

theorem CreateHeader_created (fs : FileSystem) (assets : List asset_entry_t)
    (output_name : List Char)
    (h : fs.fopen_w (snprintf_name output_name ".gen.h".toList) = true) :
    CreateHeader fs assets output_name =
      ⟨true, some (header_prologue assets.length ++
        ((assets.enum).map (fun p => enum_entry p.2.name p.1)).flatten ++
        header_middle assets.length ++ (assets.map table_entry).flatten ++
        "\x7d;\n".toList), []⟩ := by
  unfold CreateHeader
  simp only [h, if_true, CreateHeader_table_loop_eq, CreateHeader_enum_loop_eq, List.enum]

theorem fmt_d_small (i : Nat) (h : i < 2 ^ 31) : fmt_d i = (Nat.repr i).toList := by
  have h1 : i % 2 ^ 32 = i := Nat.mod_eq_of_lt (by omega)
  unfold fmt_d fmt_u
  rw [h1, if_pos h]

theorem fmt_lld_small (n : Nat) (h : n < 2 ^ 63) : fmt_lld n = (Nat.repr n).toList := by
  have h1 : n % 2 ^ 64 = n := Nat.mod_eq_of_lt (by omega)
  unfold fmt_lld fmt_u
  rw [h1, if_pos h]

/-- The entries of the enumeration print the plain decimal index when the list has fewer
than `2 ^ 31` descriptors. -/
theorem enum_entries_small (l : List asset_entry_t) (i : Nat) (h : i + l.length ≤ 2 ^ 31) :
    (l.enumFrom i).map (fun p => enum_entry p.2.name p.1) =
      (l.enumFrom i).map (fun p => "    ASSET_".toList ++ p.2.name ++ " = ".toList ++
        (Nat.repr p.1).toList ++ ",\n".toList) := by
  induction l generalizing i with
  | nil => simp
  | cons a rest ih =>
    simp only [List.length_cons] at h
    simp only [List.enumFrom_cons, List.map_cons, ih (i + 1) (by omega)]
    rw [enum_entry, fmt_d_small i (by omega)]

theorem CreatePacker_loop_names (fs : FileSystem) (pf : List Char) (l : List asset_entry_t)
    (t : Nat) (out : List UInt8) :
    (CreatePacker_loop fs pf l t out).assets.map (fun a => a.name) =
      l.map (fun a => a.name) := by
  induction l generalizing t out with
  | nil => simp [CreatePacker_loop]
  | cons a rest ih =>
    simp only [CreatePacker_loop]
    cases h : fs.fopen_rb a.path with
    | none => simp
    | some content => simp [ih]

/-- The pack assembler leaves the identifiers as they are, whether it succeeds or not. -/
theorem CreatePacker_names (fs : FileSystem) (assets : List asset_entry_t)
    (output_name : List Char) :
    (CreatePacker fs assets output_name).assets.map (fun a => a.name) =
      assets.map (fun a => a.name) := by
  by_cases hw : fs.fopen_w (snprintf_name output_name ".gen.nxap".toList) = true
  · rw [CreatePacker_created fs assets output_name hw, CreatePacker_loop_names]
  · rw [CreatePacker_not_created fs assets output_name hw]

theorem enumFrom_names {β : Type} (g : List Char → Nat → β) (l : List asset_entry_t)
    (i : Nat) :
    (l.enumFrom i).map (fun p => g p.2.name p.1) =
      ((l.map (fun a => a.name)).enumFrom i).map (fun p => g p.2 p.1) := by
  induction l generalizing i with
  | nil => simp
  | cons a rest ih => simp [List.enumFrom_cons, ih]

/-! ## Invariants of the config parser -/

/-- The parser never stores more than `MAX_ASSETS` descriptors and reports success only
with at least one. -/
theorem ParseConfig_loop_bounds (fs : FileSystem) (config : List Char) (fuel : Nat) :
    ∀ (unread cmd : List Char) (assets : List asset_entry_t), assets.length ≤ MAX_ASSETS →
      (ParseConfig_loop fs config fuel unread cmd assets).assets.length ≤ MAX_ASSETS ∧
      ((ParseConfig_loop fs config fuel unread cmd assets).ret = true →
        0 < (ParseConfig_loop fs config fuel unread cmd assets).assets.length) := by
  induction fuel with
  | zero =>
    intro unread cmd assets h
    simp [ParseConfig_loop, h]
  | succ n ih =>
    intro unread cmd assets h
    rw [ParseConfig_loop]
    split
    · simp [h]
    · simp only []
      split_ifs with h1 h2 h3 h4
      · exact ih _ _ _ h
      · exact ih _ _ _ (by simp only [List.length_append, List.length_singleton]; omega)
      · simp [h]
      · simp [h]
      · exact ih _ _ _ h

theorem ParseConfig_bounds (fs : FileSystem) (cmd0 config : List Char) :
    (ParseConfig fs cmd0 config).assets.length ≤ MAX_ASSETS ∧
    ((ParseConfig fs cmd0 config).ret = true →
      0 < (ParseConfig fs cmd0 config).assets.length) := by
  unfold ParseConfig
  split
  · simp
  · exact ParseConfig_loop_bounds fs config _ _ _ _ (by simp)


/-! ## Claims on the pack assembler -/

/-- C1 (amended): after a successful `CreatePacker` the offset of descriptor `i` is 8 plus
the sum of the sizes of the descriptors before it in declaration order, computed in
`size_t` arithmetic (reduced modulo `2 ^ 64`); it is exactly 8 plus that sum whenever
this value is below `2 ^ 64`, and the first offset is 8.  Names and paths play no
role. -/
theorem CreatePacker_offset_prefix_sum (fs : FileSystem) (assets : List asset_entry_t)
    (output_name : List Char) (i : Nat)
    (hret : (CreatePacker fs assets output_name).ret = true) (hi : i < assets.length) :
    ∃ b, (CreatePacker fs assets output_name).assets[i]? = some b ∧
      b.offset = (8 + (sizes (assets.take i)).sum) % SIZE_T_MOD ∧
      (8 + (sizes (assets.take i)).sum < SIZE_T_MOD →
        b.offset = 8 + (sizes (assets.take i)).sum) ∧
      (i = 0 → b.offset = 8) := by
  refine ⟨_, CreatePacker_assets_get fs assets output_name hret i _
    (List.getElem?_eq_getElem hi), rfl, ?_, ?_⟩
  · intro hfit
    exact Nat.mod_eq_of_lt hfit
  · intro h0
    subst h0
    rfl

theorem CreatePacker_offset_prefix_sum_witness :
    (CreatePacker fs_empty_sources assets_huge "out".toList).ret = true ∧
    1 < assets_huge.length ∧
    ∃ b, (CreatePacker fs_empty_sources assets_huge "out".toList).assets[1]? = some b ∧
      b.offset = (8 + (sizes (assets_huge.take 1)).sum) % SIZE_T_MOD ∧
      (8 + (sizes (assets_huge.take 1)).sum < SIZE_T_MOD →
        b.offset = 8 + (sizes (assets_huge.take 1)).sum) ∧
      (1 = 0 → b.offset = 8) :=
  ⟨by decide, by decide,
    CreatePacker_offset_prefix_sum fs_empty_sources assets_huge "out".toList 1
      (by decide) (by decide)⟩

/-- C1 as stated fails when the sizes overflow `size_t`: with two sources of
`2 ^ 63 - 1` bytes the third descriptor gets offset 6, not `8 + 2 * (2 ^ 63 - 1)`. -/
theorem CreatePacker_offset_wraps :
    (CreatePacker fs_empty_sources assets_huge "out".toList).ret = true ∧
    assets_huge.length ≤ 512 ∧
    (CreatePacker fs_empty_sources assets_huge "out".toList).assets.map (fun a => a.offset)
      = [8, 9223372036854775815, 6] ∧
    8 + (sizes (assets_huge.take 2)).sum = 18446744073709551622 := by
  decide

/-- C2: when the pack file can be created and every source opens, `CreatePacker`
succeeds and the pack file is exactly the 4 bytes of the magic number `0x4E584150`,
the 4 bytes of version 1 and the contents of the sources in declaration order,
with nothing between or after them. -/
theorem CreatePacker_pack_file_bytes (fs : FileSystem) (assets : List asset_entry_t)
    (output_name : List Char)
    (hcreate : fs.fopen_w (snprintf_name output_name ".gen.nxap".toList) = true)
    (hopen : ∀ a ∈ assets, fs.fopen_rb a.path ≠ none) :
    (CreatePacker fs assets output_name).ret = true ∧
    (CreatePacker fs assets output_name).pack_file =
      some (fwrite_u32 0x4E584150 ++ fwrite_u32 1 ++
        assets.flatMap (fun a => (fs.fopen_rb a.path).getD [])) ∧
    fwrite_u32 0x4E584150 = [0x50, 0x41, 0x58, 0x4E] ∧ fwrite_u32 1 = [1, 0, 0, 0] := by
  rw [CreatePacker_created fs assets output_name hcreate]
  exact ⟨(CreatePacker_loop_ret fs _ assets _ _).mpr hopen,
    CreatePacker_loop_pack_file fs _ assets _ _ hopen, by decide, by decide⟩

theorem CreatePacker_pack_file_bytes_witness :
    fs_three_bytes.fopen_w (snprintf_name "out".toList ".gen.nxap".toList) = true ∧
    (∀ a ∈ [(⟨"A".toList, "a".toList, 0, 3⟩ : asset_entry_t)],
      fs_three_bytes.fopen_rb a.path ≠ none) ∧
    (CreatePacker fs_three_bytes [⟨"A".toList, "a".toList, 0, 3⟩] "out".toList).pack_file =
      some [0x50, 0x41, 0x58, 0x4E, 1, 0, 0, 0, 1, 2, 3] :=
  ⟨by decide, by decide,
    ((CreatePacker_pack_file_bytes fs_three_bytes [⟨"A".toList, "a".toList, 0, 3⟩]
      "out".toList (by decide) (by decide)).2.1).trans (by decide)⟩

/-- C3 (amended): for a config on which `ParseConfig` and then `CreatePacker` succeed and
an asset index `i` such that the size recorded for every descriptor up to and including
`i` is the number of bytes streamed from its source, and 8 plus the sizes before `i`
stays below `2 ^ 64`, the slice `[offset_i, offset_i + size_i)` of the pack file is the
content streamed for asset `i`. -/
theorem pack_round_trip (fs : FileSystem) (cmd0 config output_name : List Char) (i : Nat)
    (b : asset_entry_t)
    (hparse : (ParseConfig fs cmd0 config).ret = true)
    (hpack : (CreatePacker fs (ParseConfig fs cmd0 config).assets output_name).ret = true)
    (hb : (CreatePacker fs (ParseConfig fs cmd0 config).assets output_name).assets[i]?
      = some b)
    (hsize : ∀ c ∈ (ParseConfig fs cmd0 config).assets.take (i + 1),
      c.size = (source_bytes fs c).length)
    (hfit : 8 + (sizes ((ParseConfig fs cmd0 config).assets.take i)).sum < SIZE_T_MOD) :
    ∃ pack,
      (CreatePacker fs (ParseConfig fs cmd0 config).assets output_name).pack_file = some pack ∧
      (pack.drop b.offset).take b.size = source_bytes fs b := by
  have _ := hparse
  exact CreatePacker_slice fs _ output_name i b hpack hb hsize hfit

theorem pack_round_trip_witness :
    (ParseConfig fs_background [] "cfg".toList).ret = true ∧
    (CreatePacker fs_background (ParseConfig fs_background [] "cfg".toList).assets
      "out".toList).ret = true ∧
    (CreatePacker fs_background (ParseConfig fs_background [] "cfg".toList).assets
      "out".toList).assets[0]? = some ⟨"BACKGROUND".toList, "img/bg.png".toList, 8, 100⟩ ∧
    ∃ pack,
      (CreatePacker fs_background (ParseConfig fs_background [] "cfg".toList).assets
        "out".toList).pack_file = some pack ∧
      (pack.drop 8).take 100 = List.replicate 100 7 :=
  ⟨by decide, by decide, by decide,
    pack_round_trip fs_background [] "cfg".toList "out".toList 0
      ⟨"BACKGROUND".toList, "img/bg.png".toList, 8, 100⟩ (by decide) (by decide) (by decide)
      (by decide) (by decide)⟩

/-- C3 as stated fails when the probed size differs from what is streamed: for a source
whose `stat` size is 0 but which delivers three bytes, both stages succeed, the table
entry is `(8, 0)` and the designated slice is empty. -/
theorem pack_round_trip_fails_unsized :
    (ParseConfig fs_unsized [] "cfg".toList).ret = true ∧
    (CreatePacker fs_unsized (ParseConfig fs_unsized [] "cfg".toList).assets
      "out".toList).ret = true ∧
    (CreatePacker fs_unsized (ParseConfig fs_unsized [] "cfg".toList).assets
      "out".toList).assets = [⟨"V".toList, "v".toList, 8, 0⟩] ∧
    (CreatePacker fs_unsized (ParseConfig fs_unsized [] "cfg".toList).assets
      "out".toList).pack_file = some [0x50, 0x41, 0x58, 0x4E, 1, 0, 0, 0, 1, 2, 3] ∧
    fs_unsized.fopen_rb "v".toList = some [1, 2, 3] ∧
    (([0x50, 0x41, 0x58, 0x4E, 1, 0, 0, 0, 1, 2, 3] : List UInt8).drop 8).take 0
      ≠ [1, 2, 3] := by
  decide

/-- C4 (amended): for a non-empty descriptor list on which `CreatePacker` succeeds, when
the size of every descriptor is the number of bytes streamed from its source and 8 plus
the sum of the sizes is below `2 ^ 64`, the pack file has 8 plus the sum of all sizes
bytes, and this is offset + size of the last descriptor. -/
theorem pack_total_size (fs : FileSystem) (assets : List asset_entry_t)
    (output_name : List Char) (last : asset_entry_t)
    (hret : (CreatePacker fs assets output_name).ret = true)
    (hlast : (CreatePacker fs assets output_name).assets.getLast? = some last)
    (hsize : ∀ c ∈ assets, c.size = (source_bytes fs c).length)
    (hfit : 8 + (sizes assets).sum < SIZE_T_MOD) :
    ∃ pack, (CreatePacker fs assets output_name).pack_file = some pack ∧
      pack.length = 8 + (sizes assets).sum ∧
      last.offset + last.size = pack.length := by
  have hw := CreatePacker_ret_created fs assets output_name hret
  have hlen : (CreatePacker fs assets output_name).assets.length = assets.length := by
    rw [CreatePacker_created fs assets output_name hw, CreatePacker_loop_length]
  have htot : (fwrite_u32 MAGIC_NUMBER ++ fwrite_u32 VERSION ++
      assets.flatMap (source_bytes fs)).length = 8 + (sizes assets).sum := by
    rw [List.length_append, header_length, length_flatMap_sum, sizes_eq_lengths fs _ hsize]
  refine ⟨_, (CreatePacker_success fs assets output_name hret).2, htot, ?_⟩
  rw [htot]
  rw [List.getLast?_eq_getElem?, hlen] at hlast
  have hi : assets.length - 1 < assets.length := by
    have h1 := (List.getElem?_eq_some.mp hlast).1
    rw [hlen] at h1
    exact h1
  have ha : assets[assets.length - 1]? = some assets[assets.length - 1] :=
    List.getElem?_eq_getElem hi
  have hget := CreatePacker_assets_get fs assets output_name hret _ _ ha
  rw [hlast] at hget
  have hbeq := Option.some.inj hget
  have hsum := sizes_take_succ assets _ _ ha
  rw [Nat.sub_add_cancel (by omega : 1 ≤ assets.length), List.take_length] at hsum
  have hlt : 8 + (sizes (assets.take (assets.length - 1))).sum < SIZE_T_MOD := by omega
  rw [hbeq]
  simp only
  rw [Nat.mod_eq_of_lt hlt]
  omega

theorem pack_total_size_witness :
    (ParseConfig fs_background [] "cfg".toList).assets
      = [⟨"BACKGROUND".toList, "img/bg.png".toList, 0, 100⟩] ∧
    (CreatePacker fs_background (ParseConfig fs_background [] "cfg".toList).assets
      "out".toList).ret = true ∧
    (CreatePacker fs_background (ParseConfig fs_background [] "cfg".toList).assets
      "out".toList).assets.getLast?
      = some ⟨"BACKGROUND".toList, "img/bg.png".toList, 8, 100⟩ ∧
    table_entry ⟨"BACKGROUND".toList, "img/bg.png".toList, 8, 100⟩
      = "    [ASSET_BACKGROUND] = \x7b.offset = 8, .size = 100\x7d,\n".toList ∧
    ∃ pack,
      (CreatePacker fs_background (ParseConfig fs_background [] "cfg".toList).assets
        "out".toList).pack_file = some pack ∧
      pack.length = 8 + (sizes (ParseConfig fs_background [] "cfg".toList).assets).sum ∧
      8 + 100 = pack.length :=
  ⟨by decide, by decide, by decide, by decide,
    pack_total_size fs_background (ParseConfig fs_background [] "cfg".toList).assets
      "out".toList ⟨"BACKGROUND".toList, "img/bg.png".toList, 8, 100⟩
      (by decide) (by decide) (by decide) (by decide)⟩

/-- C4 as stated fails when a size field is not the streamed length: for the source whose
`stat` size is 0 and which delivers three bytes the pack file has 11 bytes, while 8 plus
the sizes, and offset + size of the last descriptor, are 8. -/
theorem pack_total_size_fails_unsized :
    (ParseConfig fs_unsized [] "cfg".toList).assets = [⟨"V".toList, "v".toList, 0, 0⟩] ∧
    (CreatePacker fs_unsized [⟨"V".toList, "v".toList, 0, 0⟩] "out".toList).ret = true ∧
    (CreatePacker fs_unsized [⟨"V".toList, "v".toList, 0, 0⟩] "out".toList).assets.getLast?
      = some ⟨"V".toList, "v".toList, 8, 0⟩ ∧
    (CreatePacker fs_unsized [⟨"V".toList, "v".toList, 0, 0⟩] "out".toList).pack_file.map
      List.length = some 11 ∧
    8 + (sizes [⟨"V".toList, "v".toList, 0, 0⟩]).sum = 8 := by
  decide

/-! ## Lemmas on reading lines -/

theorem fgets_read_line (k : Nat) (l tail : List Char) (hnl : ∀ c ∈ l, c ≠ '\n')
    (hk : l.length < k) :
    fgets_read k (l ++ '\n' :: tail) = (l ++ ['\n'], tail) := by
  induction l generalizing k with
  | nil =>
    cases k with
    | zero => simp at hk
    | succ k => simp [fgets_read]
  | cons c cs ih =>
    cases k with
    | zero => simp at hk
    | succ k =>
      have hc : c ≠ '\n' := hnl c (List.mem_cons_self _ _)
      have hcs : ∀ x ∈ cs, x ≠ '\n' := fun x hx => hnl x (List.mem_cons_of_mem _ hx)
      have hk1 : cs.length < k := by simp only [List.length_cons] at hk; omega
      simp [fgets_read, hc, ih k hcs hk1]

theorem fgets_read_eof (k : Nat) (l : List Char) (hnl : ∀ c ∈ l, c ≠ '\n')
    (hk : l.length ≤ k) :
    fgets_read k l = (l, []) := by
  induction l generalizing k with
  | nil => cases k <;> simp [fgets_read]
  | cons c cs ih =>
    cases k with
    | zero => simp at hk
    | succ k =>
      have hc : c ≠ '\n' := hnl c (List.mem_cons_self _ _)
      have hcs : ∀ x ∈ cs, x ≠ '\n' := fun x hx => hnl x (List.mem_cons_of_mem _ hx)
      have hk1 : cs.length ≤ k := by simp only [List.length_cons] at hk; omega
      simp [fgets_read, hc, ih k hcs hk1]

theorem fgets_read_length (k : Nat) (u : List Char) :
    (fgets_read k u).2.length ≤ u.length := by
  induction u generalizing k with
  | nil => cases k <;> simp [fgets_read]
  | cons c cs ih =>
    cases k with
    | zero => simp [fgets_read]
    | succ k =>
      by_cases hc : c = '\n'
      · simp [fgets_read, hc]
      · have := ih k
        simp only [fgets_read, hc, if_false, List.length_cons]
        omega

/-- Every successful `fgets` consumes at least one character. -/
theorem fgets_progress (unread : List Char) (r : List Char × List Char)
    (h : fgets MAX_CHARSET unread = some r) : r.2.length < unread.length := by
  unfold fgets at h
  cases unread with
  | nil => simp at h
  | cons c cs =>
    simp only [reduceCtorEq, if_false, Option.some.injEq] at h
    rw [← h]
    have h1 : MAX_CHARSET - 1 = 126 + 1 := by decide
    rw [h1]
    by_cases hc : c = '\n'
    · simp [fgets_read, hc]
    · have := fgets_read_length 126 cs
      simp only [fgets_read, hc, if_false, List.length_cons]
      omega

/-- The iteration bound of the parser loop does not matter once it covers the unread
characters: the loop always runs until `fgets` reports the end of the file. -/
theorem ParseConfig_loop_fuel (fs : FileSystem) (config : List Char) (fuel1 : Nat) :
    ∀ (fuel2 : Nat) (unread cmd : List Char) (assets : List asset_entry_t),
      unread.length ≤ fuel1 → unread.length ≤ fuel2 →
      ParseConfig_loop fs config fuel1 unread cmd assets =
        ParseConfig_loop fs config fuel2 unread cmd assets := by
  induction fuel1 with
  | zero =>
    intro fuel2 unread cmd assets h1 _
    have hnil : unread = [] := List.length_eq_zero.mp (Nat.le_zero.mp h1)
    subst hnil
    cases fuel2 with
    | zero => rfl
    | succ m => simp [ParseConfig_loop, fgets]
  | succ n ih =>
    intro fuel2 unread cmd assets h1 h2
    cases fuel2 with
    | zero =>
      have hnil : unread = [] := List.length_eq_zero.mp (Nat.le_zero.mp h2)
      subst hnil
      simp [ParseConfig_loop, fgets]
    | succ m =>
      simp only [ParseConfig_loop]
      cases hf : fgets MAX_CHARSET unread with
      | none => rfl
      | some r =>
        have hp := fgets_progress unread r hf
        have hn : r.2.length ≤ n := by omega
        have hm : r.2.length ≤ m := by omega
        simp only []
        split_ifs
        · exact ih m _ _ _ hn hm
        · exact ih m _ _ _ hn hm
        · rfl
        · rfl
        · exact ih m _ _ _ hn hm

/-! ## One iteration of the parser loop -/

theorem fgets_nonempty (unread : List Char) (r : List Char × List Char)
    (h : fgets MAX_CHARSET unread = some r) : unread ≠ [] := by
  intro hnil
  simp [fgets, hnil] at h

theorem ParseConfig_loop_skip (fs : FileSystem) (config : List Char) (fuel : Nat)
    (unread buf rest cmd : List Char) (assets : List asset_entry_t)
    (hlen : unread.length ≤ fuel) (hf : fgets MAX_CHARSET unread = some (buf, rest))
    (hskip : (c_str buf).headD (Char.ofNat 0) = Char.ofNat 0 ∨
      (c_str buf).headD (Char.ofNat 0) = '#' ∨ (c_str buf).headD (Char.ofNat 0) = '\r' ∨
      (c_str buf).headD (Char.ofNat 0) = '\n') :
    ParseConfig_loop fs config fuel unread cmd assets =
      ParseConfig_loop fs config rest.length rest cmd assets := by
  have hp := fgets_progress unread _ hf
  cases fuel with
  | zero => simp only [Nat.le_zero] at hlen; omega
  | succ n =>
    simp only [ParseConfig_loop, hf]
    rw [if_pos hskip]
    exact ParseConfig_loop_fuel fs config n _ _ _ _ (by simp only at hp; omega) (le_refl _)

theorem ParseConfig_loop_foreign (fs : FileSystem) (config : List Char) (fuel : Nat)
    (unread buf rest cmd : List Char) (assets : List asset_entry_t)
    (hlen : unread.length ≤ fuel) (hf : fgets MAX_CHARSET unread = some (buf, rest))
    (hskip : ¬ ((c_str buf).headD (Char.ofNat 0) = Char.ofNat 0 ∨
      (c_str buf).headD (Char.ofNat 0) = '#' ∨ (c_str buf).headD (Char.ofNat 0) = '\r' ∨
      (c_str buf).headD (Char.ofNat 0) = '\n'))
    (hcmd : ¬ (sscanf_s (c_str buf) cmd).take 6 = "PACKER".toList) :
    ParseConfig_loop fs config fuel unread cmd assets =
      ParseConfig_loop fs config rest.length rest (sscanf_s (c_str buf) cmd) assets := by
  have hp := fgets_progress unread _ hf
  cases fuel with
  | zero => simp only [Nat.le_zero] at hlen; omega
  | succ n =>
    simp only [ParseConfig_loop, hf]
    rw [if_neg hskip, if_neg hcmd]
    exact ParseConfig_loop_fuel fs config n _ _ _ _ (by simp only at hp; omega) (le_refl _)

theorem ParseConfig_loop_directive (fs : FileSystem) (config : List Char) (fuel : Nat)
    (unread buf rest cmd : List Char) (assets : List asset_entry_t)
    (hlen : unread.length ≤ fuel) (hf : fgets MAX_CHARSET unread = some (buf, rest))
    (hskip : ¬ ((c_str buf).headD (Char.ofNat 0) = Char.ofNat 0 ∨
      (c_str buf).headD (Char.ofNat 0) = '#' ∨ (c_str buf).headD (Char.ofNat 0) = '\r' ∨
      (c_str buf).headD (Char.ofNat 0) = '\n'))
    (hcmd : (sscanf_s (c_str buf) cmd).take 6 = "PACKER".toList)
    (hscan : (sscanf_PACKER (c_str buf)).ret = 2) (hroom : assets.length < MAX_ASSETS) :
    ParseConfig_loop fs config fuel unread cmd assets =
      ParseConfig_loop fs config rest.length rest (sscanf_s (c_str buf) cmd)
        (assets ++ [{ name := (sscanf_PACKER (c_str buf)).name.take (MAX_NAME - 1)
                      path := (sscanf_PACKER (c_str buf)).filename.take (MAX_PATH - 1)
                      offset := 0
                      size := match fs.stat
                          ((sscanf_PACKER (c_str buf)).filename.take (MAX_PATH - 1)) with
                        | none => 0
                        | some st_size => st_size }]) := by
  have hp := fgets_progress unread _ hf
  cases fuel with
  | zero => simp only [Nat.le_zero] at hlen; omega
  | succ n =>
    simp only [ParseConfig_loop, hf]
    rw [if_neg hskip, if_pos hcmd, if_pos hscan, if_pos hroom]
    exact ParseConfig_loop_fuel fs config n _ _ _ _ (by simp only at hp; omega) (le_refl _)

theorem ParseConfig_loop_too_many (fs : FileSystem) (config : List Char) (fuel : Nat)
    (unread buf rest cmd : List Char) (assets : List asset_entry_t)
    (hlen : unread.length ≤ fuel) (hf : fgets MAX_CHARSET unread = some (buf, rest))
    (hskip : ¬ ((c_str buf).headD (Char.ofNat 0) = Char.ofNat 0 ∨
      (c_str buf).headD (Char.ofNat 0) = '#' ∨ (c_str buf).headD (Char.ofNat 0) = '\r' ∨
      (c_str buf).headD (Char.ofNat 0) = '\n'))
    (hcmd : (sscanf_s (c_str buf) cmd).take 6 = "PACKER".toList)
    (hscan : (sscanf_PACKER (c_str buf)).ret = 2) (hroom : ¬ assets.length < MAX_ASSETS) :
    ParseConfig_loop fs config fuel unread cmd assets = ⟨false, assets, [config]⟩ := by
  have hp := fgets_progress unread _ hf
  cases fuel with
  | zero => simp only [Nat.le_zero] at hlen; omega
  | succ n =>
    simp only [ParseConfig_loop, hf]
    rw [if_neg hskip, if_pos hcmd, if_pos hscan, if_neg hroom]

theorem ParseConfig_loop_invalid (fs : FileSystem) (config : List Char) (fuel : Nat)
    (unread buf rest cmd : List Char) (assets : List asset_entry_t)
    (hlen : unread.length ≤ fuel) (hf : fgets MAX_CHARSET unread = some (buf, rest))
    (hskip : ¬ ((c_str buf).headD (Char.ofNat 0) = Char.ofNat 0 ∨
      (c_str buf).headD (Char.ofNat 0) = '#' ∨ (c_str buf).headD (Char.ofNat 0) = '\r' ∨
      (c_str buf).headD (Char.ofNat 0) = '\n'))
    (hcmd : (sscanf_s (c_str buf) cmd).take 6 = "PACKER".toList)
    (hscan : ¬ (sscanf_PACKER (c_str buf)).ret = 2) :
    ParseConfig_loop fs config fuel unread cmd assets = ⟨false, assets, [config]⟩ := by
  have hp := fgets_progress unread _ hf
  cases fuel with
  | zero => simp only [Nat.le_zero] at hlen; omega
  | succ n =>
    simp only [ParseConfig_loop, hf]
    rw [if_neg hskip, if_pos hcmd, if_neg hscan]

/-! ## Lemmas on scanning a line -/

theorem isspace_ne_nul (c : Char) (h : isspace c = true) : c ≠ Char.ofNat 0 := by
  intro hc
  subst hc
  revert h
  decide

theorem is_blank_isspace (c : Char) (h : is_blank c = true) : isspace c = true := by
  simp only [is_blank, Bool.and_eq_true] at h
  exact h.1

theorem is_blank_ne_newline (c : Char) (h : is_blank c = true) : c ≠ '\n' := by
  simp only [is_blank, Bool.and_eq_true, bne_iff_ne] at h
  exact h.2

theorem is_token_char_not_space (c : Char) (h : is_token_char c = true) :
    isspace c = false := by
  simp only [is_token_char, Bool.and_eq_true, Bool.not_eq_true'] at h
  exact h.1

theorem is_token_char_ne_nul (c : Char) (h : is_token_char c = true) : c ≠ Char.ofNat 0 := by
  simp only [is_token_char, Bool.and_eq_true, bne_iff_ne] at h
  exact h.2

theorem not_space_ne_newline (c : Char) (h : isspace c = false) : c ≠ '\n' := by
  intro hc
  subst hc
  revert h
  decide

theorem is_line_char_ne_newline (c : Char) (h : is_line_char c = true) : c ≠ '\n' := by
  simp only [is_line_char, Bool.and_eq_true, bne_iff_ne] at h
  exact h.1

theorem is_line_char_ne_nul (c : Char) (h : is_line_char c = true) : c ≠ Char.ofNat 0 := by
  simp only [is_line_char, Bool.and_eq_true, bne_iff_ne] at h
  exact h.2

theorem c_str_headD (buf : List Char) :
    (c_str buf).headD (Char.ofNat 0) = buf.headD (Char.ofNat 0) := by
  cases buf with
  | nil => rfl
  | cons c cs =>
    by_cases hc : c = Char.ofNat 0
    · simp [c_str, List.takeWhile_cons, hc]
    · simp [c_str, List.takeWhile_cons, hc]

theorem c_str_of_no_nul (buf : List Char) (h : ∀ c ∈ buf, c ≠ Char.ofNat 0) :
    c_str buf = buf := by
  unfold c_str
  rw [List.takeWhile_eq_self_iff]
  intro x hx
  simp [h x hx]

theorem scan_literal_append (f r : List Char) : scan_literal f (f ++ r) = .ok r := by
  induction f with
  | nil => cases r <;> rfl
  | cons c cs ih => simp [scan_literal, ih]

theorem takeWhile_not_space_stop (rest : List Char) (h : isspace (rest.headD ' ') = true) :
    rest.takeWhile (fun c => !isspace c) = [] ∧ rest.dropWhile (fun c => !isspace c) = rest := by
  cases rest with
  | nil => simp
  | cons c cs =>
    simp only [List.headD_cons] at h
    simp [List.takeWhile_cons, List.dropWhile_cons, h]

/-- The conversion `%s` on white space, a token and a remainder that is empty or starts
with white space: the token is stored and the remainder is left. -/
theorem scan_s_token (ws tok rest : List Char) (hws : ∀ c ∈ ws, isspace c = true)
    (hne : tok ≠ []) (htok : ∀ c ∈ tok, isspace c = false)
    (hrest : isspace (rest.headD ' ') = true) :
    scan_s (ws ++ tok ++ rest) = some (tok, rest) := by
  have hdrop : (ws ++ tok ++ rest).dropWhile isspace = tok ++ rest := by
    rw [List.append_assoc, List.dropWhile_append_of_pos hws]
    cases tok with
    | nil => exact absurd rfl hne
    | cons t ts =>
      have ht : isspace t = false := htok t (List.mem_cons_self _ _)
      simp [List.dropWhile_cons, ht]
  have htok1 : ∀ c ∈ tok, (fun c => !isspace c) c = true := by
    intro c hc
    simp [htok c hc]
  have hstop := takeWhile_not_space_stop rest hrest
  unfold scan_s
  rw [hdrop, List.takeWhile_append_of_pos htok1, List.dropWhile_append_of_pos htok1,
    hstop.1, hstop.2, List.append_nil]
  have hne2 : tok ++ rest ≠ [] := by
    intro h
    exact hne (List.append_eq_nil.mp h).1
  rw [if_neg hne2]

/-- The first token scanned from a buffer is the first token of the line it holds. -/
theorem scan_s_first_token (t term : List Char) (ht : first_token t ≠ [])
    (hterm : term = [] ∨ term = ['\n']) :
    ∃ r, scan_s (t ++ term) = some (first_token t, r) := by
  have hd : t.dropWhile isspace ≠ [] := by
    intro h
    apply ht
    simp [first_token, h]
  have hdrop : (t ++ term).dropWhile isspace = t.dropWhile isspace ++ term := by
    rw [List.dropWhile_append]
    have : (List.dropWhile isspace t).isEmpty = false := by
      cases h : List.dropWhile isspace t with
      | nil => exact absurd h hd
      | cons _ _ => rfl
    simp [this]
  have htake : (t.dropWhile isspace ++ term).takeWhile (fun c => !isspace c) =
      first_token t := by
    rw [List.takeWhile_append]
    split_ifs with hlen
    · have hall : List.takeWhile (fun c => !isspace c) (t.dropWhile isspace) =
          t.dropWhile isspace := by
        have hpre := List.takeWhile_prefix (fun c => !isspace c) (l := t.dropWhile isspace)
        exact hpre.eq_of_length hlen
      have hterm2 : term.takeWhile (fun c => !isspace c) = [] := by
        rcases hterm with h | h
        · simp [h]
        · rw [h]; decide
      rw [hterm2, List.append_nil]
      unfold first_token
      exact hall.symm
    · rfl
  unfold scan_s
  rw [hdrop]
  have hne2 : t.dropWhile isspace ++ term ≠ [] := by
    intro h
    exact hd (List.append_eq_nil.mp h).1
  rw [if_neg hne2, htake]
  exact ⟨_, rfl⟩

/-! ## Lemmas on well-formed lines -/

theorem fgets_line (text term tail : List Char) (hnl : ∀ c ∈ text, c ≠ '\n')
    (hlen : text.length ≤ 126)
    (hterm : term = ['\n'] ∨ (term = [] ∧ tail = [] ∧ text ≠ [])) :
    fgets MAX_CHARSET (text ++ term ++ tail) = some (text ++ term, tail) := by
  have h127 : MAX_CHARSET - 1 = 127 := by decide
  unfold fgets
  rw [h127]
  rcases hterm with h | ⟨h1, h2, h3⟩
  · subst h
    have hne : text ++ ['\n'] ++ tail ≠ [] := by simp
    rw [if_neg hne, List.append_assoc, List.singleton_append,
      fgets_read_line 127 text tail hnl (by omega)]
  · subst h1 h2
    simp only [List.append_nil]
    rw [if_neg h3, fgets_read_eof 127 text hnl (by omega)]

theorem directive_parts (sep1 path sep2 ident trail : List Char)
    (h : (ConfigLine.directive sep1 path sep2 ident trail).wf = true) :
    (sep1 ≠ [] ∧ ∀ c ∈ sep1, is_blank c = true) ∧
    (path ≠ [] ∧ ∀ c ∈ path, is_token_char c = true) ∧
    (sep2 ≠ [] ∧ ∀ c ∈ sep2, is_blank c = true) ∧
    (ident ≠ [] ∧ ∀ c ∈ ident, is_token_char c = true) ∧
    (∀ c ∈ trail, is_line_char c = true) ∧ is_blank (trail.headD ' ') = true ∧
    ("PACKER".toList ++ sep1 ++ path ++ sep2 ++ ident ++ trail).length ≤ 126 := by
  simp only [ConfigLine.wf, ConfigLine.text, Bool.and_eq_true, Bool.not_eq_true',
    List.isEmpty_eq_false, List.all_eq_true, decide_eq_true_eq] at h
  obtain ⟨⟨⟨⟨⟨⟨⟨⟨⟨⟨h1, h2⟩, h3⟩, h4⟩, h5⟩, h6⟩, h7⟩, h8⟩, h9⟩, h10⟩, h11⟩ := h
  exact ⟨⟨h1, h2⟩, ⟨h3, h4⟩, ⟨h5, h6⟩, ⟨h7, h8⟩, h9, h10, h11⟩

theorem wf_text (l : ConfigLine) (h : l.wf = true) :
    (∀ c ∈ l.text, c ≠ '\n') ∧ l.text.length ≤ 126 := by
  cases l with
  | skipped t =>
    simp only [ConfigLine.wf, Bool.and_eq_true, List.all_eq_true, bne_iff_ne,
      decide_eq_true_eq] at h
    exact ⟨h.1.1, h.1.2⟩
  | directive sep1 path sep2 ident trail =>
    obtain ⟨⟨_, h2⟩, ⟨_, h4⟩, ⟨_, h6⟩, ⟨_, h8⟩, h9, _, h11⟩ :=
      directive_parts sep1 path sep2 ident trail h
    refine ⟨?_, h11⟩
    intro c hc
    simp only [ConfigLine.text, List.mem_append] at hc
    rcases hc with ((((hc | hc) | hc) | hc) | hc) | hc
    · intro hcn
      subst hcn
      revert hc
      decide
    · exact is_blank_ne_newline c (h2 c hc)
    · exact not_space_ne_newline c (is_token_char_not_space c (h4 c hc))
    · exact is_blank_ne_newline c (h6 c hc)
    · exact not_space_ne_newline c (is_token_char_not_space c (h8 c hc))
    · exact is_line_char_ne_newline c (h9 c hc)
  | foreign t =>
    simp only [ConfigLine.wf, Bool.and_eq_true, List.all_eq_true, decide_eq_true_eq] at h
    exact ⟨fun c hc => is_line_char_ne_newline c (h.1.1.1.1 c hc), h.1.1.1.2⟩

theorem directive_no_nul (sep1 path sep2 ident trail term : List Char)
    (h : (ConfigLine.directive sep1 path sep2 ident trail).wf = true)
    (hterm : term = [] ∨ term = ['\n']) :
    ∀ c ∈ "PACKER".toList ++ sep1 ++ path ++ sep2 ++ ident ++ trail ++ term,
      c ≠ Char.ofNat 0 := by
  obtain ⟨⟨_, h2⟩, ⟨_, h4⟩, ⟨_, h6⟩, ⟨_, h8⟩, h9, _, _⟩ :=
    directive_parts sep1 path sep2 ident trail h
  intro c hc
  simp only [List.mem_append] at hc
  rcases hc with (((((hc | hc) | hc) | hc) | hc) | hc) | hc
  · intro hcn
    subst hcn
    revert hc
    decide
  · exact isspace_ne_nul c (is_blank_isspace c (h2 c hc))
  · exact is_token_char_ne_nul c (h4 c hc)
  · exact isspace_ne_nul c (is_blank_isspace c (h6 c hc))
  · exact is_token_char_ne_nul c (h8 c hc)
  · exact is_line_char_ne_nul c (h9 c hc)
  · rcases hterm with ht | ht
    · simp [ht] at hc
    · rw [ht] at hc
      intro hcn
      subst hcn
      revert hc
      decide

theorem headD_blank_append (trail term : List Char) (h1 : is_blank (trail.headD ' ') = true)
    (hterm : term = [] ∨ term = ['\n']) : isspace ((trail ++ term).headD ' ') = true := by
  cases trail with
  | nil =>
    rcases hterm with ht | ht
    · rw [ht]; decide
    · rw [ht]; decide
  | cons c cs => exact is_blank_isspace c h1

theorem headD_blank_cons (sep rest : List Char) (hne : sep ≠ [])
    (h : ∀ c ∈ sep, is_blank c = true) : isspace ((sep ++ rest).headD ' ') = true := by
  cases sep with
  | nil => exact absurd rfl hne
  | cons c cs => exact is_blank_isspace c (h c (List.mem_cons_self _ _))

/-- What the two `sscanf` calls find in the buffer of a well-formed directive line. -/
theorem directive_scan (sep1 path sep2 ident trail term : List Char)
    (h : (ConfigLine.directive sep1 path sep2 ident trail).wf = true)
    (hterm : term = [] ∨ term = ['\n']) (cmd : List Char) :
    sscanf_s ("PACKER".toList ++ sep1 ++ path ++ sep2 ++ ident ++ trail ++ term) cmd
      = "PACKER".toList ∧
    sscanf_PACKER ("PACKER".toList ++ sep1 ++ path ++ sep2 ++ ident ++ trail ++ term)
      = ⟨2, path, ident⟩ := by
  obtain ⟨⟨h1, h2⟩, ⟨h3, h4⟩, ⟨h5, h6⟩, ⟨h7, h8⟩, _, h10, _⟩ :=
    directive_parts sep1 path sep2 ident trail h
  have hsp1 : ∀ c ∈ sep1, isspace c = true := fun c hc => is_blank_isspace c (h2 c hc)
  have hsp2 : ∀ c ∈ sep2, isspace c = true := fun c hc => is_blank_isspace c (h6 c hc)
  have htk1 : ∀ c ∈ path, isspace c = false := fun c hc => is_token_char_not_space c (h4 c hc)
  have htk2 : ∀ c ∈ ident, isspace c = false :=
    fun c hc => is_token_char_not_space c (h8 c hc)
  have hkw : ∀ c ∈ "PACKER".toList, isspace c = false := by decide
  have e1 : "PACKER".toList ++ sep1 ++ path ++ sep2 ++ ident ++ trail ++ term =
      [] ++ "PACKER".toList ++ (sep1 ++ (path ++ (sep2 ++ (ident ++ (trail ++ term))))) := by
    simp only [List.append_assoc, List.nil_append]
  have e2 : "PACKER".toList ++ sep1 ++ path ++ sep2 ++ ident ++ trail ++ term =
      "PACKER".toList ++ (sep1 ++ path ++ (sep2 ++ ident ++ (trail ++ term))) := by
    simp only [List.append_assoc]
  have s0 := scan_s_token [] "PACKER".toList
    (sep1 ++ (path ++ (sep2 ++ (ident ++ (trail ++ term))))) (by simp) (by decide) hkw
    (headD_blank_cons sep1 _ h1 h2)
  have s1 := scan_s_token sep1 path (sep2 ++ ident ++ (trail ++ term)) hsp1 h3 htk1
    (by rw [List.append_assoc]; exact headD_blank_cons sep2 _ h5 h6)
  have s2 := scan_s_token sep2 ident (trail ++ term) hsp2 h7 htk2
    (headD_blank_append trail term h10 hterm)
  constructor
  · unfold sscanf_s
    rw [e1, s0]
  · unfold sscanf_PACKER
    rw [e2, scan_literal_append]
    simp only [s1, s2]

theorem foreign_parts (t : List Char) (h : (ConfigLine.foreign t).wf = true) :
    (∀ c ∈ t, is_line_char c = true) ∧ t.headD (Char.ofNat 0) ≠ '#' ∧
    t.headD (Char.ofNat 0) ≠ '\r' ∧ first_token t ≠ [] ∧
    (first_token t).take 6 ≠ "PACKER".toList := by
  simp only [ConfigLine.wf, Bool.and_eq_true, List.all_eq_true, decide_eq_true_eq,
    Bool.not_eq_true', Bool.or_eq_false_iff, beq_eq_false_iff_ne, List.isEmpty_eq_false,
    bne_iff_ne] at h
  obtain ⟨⟨⟨⟨h1, _⟩, h3, h4⟩, h5⟩, h6⟩ := h
  exact ⟨h1, h3, h4, h5, h6⟩

/-- One well-formed line, followed by a newline or ending the file, takes the parser
loop from one state to the next: the descriptor of the line is appended. -/
theorem ParseConfig_loop_line (fs : FileSystem) (config : List Char) (l : ConfigLine)
    (hwf : l.wf = true) (term tail : List Char)
    (hterm : term = ['\n'] ∨ (term = [] ∧ tail = [] ∧ l.text ≠ []))
    (cmd : List Char) (assets : List asset_entry_t)
    (hroom : assets.length + (l.descriptor fs).length ≤ MAX_ASSETS) :
    ∃ cmd1,
      ParseConfig_loop fs config (l.text ++ term ++ tail).length (l.text ++ term ++ tail)
        cmd assets =
      ParseConfig_loop fs config tail.length tail cmd1 (assets ++ l.descriptor fs) := by
  obtain ⟨hnl, hlen⟩ := wf_text l hwf
  have hf := fgets_line l.text term tail hnl hlen hterm
  have hterm1 : term = [] ∨ term = ['\n'] := by
    rcases hterm with h | h
    · exact Or.inr h
    · exact Or.inl h.1
  cases l with
  | skipped t =>
    refine ⟨cmd, ?_⟩
    simp only [ConfigLine.descriptor, List.append_nil]
    apply ParseConfig_loop_skip fs config _ _ _ _ cmd assets (le_refl _) hf
    rw [c_str_headD]
    simp only [ConfigLine.text] at hterm ⊢
    cases t with
    | nil =>
      rcases hterm with h | h
      · subst h; right; right; right; rfl
      · exact absurd rfl h.2.2
    | cons c cs =>
      simp only [ConfigLine.wf, Bool.and_eq_true, Bool.or_eq_true, beq_iff_eq,
        List.headD_cons] at hwf
      simp only [List.cons_append, List.headD_cons]
      rcases hwf.2 with (h | h) | h
      · left; exact h
      · right; left; exact h
      · right; right; left; exact h
  | directive sep1 path sep2 ident trail =>
    have hnn := directive_no_nul sep1 path sep2 ident trail term hwf hterm1
    have hc := c_str_of_no_nul _ hnn
    obtain ⟨hs, hp⟩ := directive_scan sep1 path sep2 ident trail term hwf hterm1 cmd
    obtain ⟨_, ⟨_, _⟩, _, ⟨_, _⟩, _, _, htot⟩ := directive_parts sep1 path sep2 ident trail hwf
    simp only [ConfigLine.text] at hf ⊢
    simp only [ConfigLine.descriptor, List.length_singleton] at hroom
    have hskip : ¬ ((c_str ("PACKER".toList ++ sep1 ++ path ++ sep2 ++ ident ++ trail ++
          term)).headD (Char.ofNat 0) = Char.ofNat 0 ∨
        (c_str ("PACKER".toList ++ sep1 ++ path ++ sep2 ++ ident ++ trail ++
          term)).headD (Char.ofNat 0) = '#' ∨
        (c_str ("PACKER".toList ++ sep1 ++ path ++ sep2 ++ ident ++ trail ++
          term)).headD (Char.ofNat 0) = '\r' ∨
        (c_str ("PACKER".toList ++ sep1 ++ path ++ sep2 ++ ident ++ trail ++
          term)).headD (Char.ofNat 0) = '\n') := by
      rw [c_str_headD]
      simp only [String.toList, List.cons_append, List.headD_cons]
      decide
    have step := ParseConfig_loop_directive fs config _ _ _ _ cmd assets (le_refl _) hf hskip
      (by rw [hc, hs]; decide) (by rw [hc, hp]) (by omega)
    rw [hc, hs, hp] at step
    have hlen_i : ident.length ≤ MAX_NAME - 1 := by
      simp only [List.length_append] at htot
      have : MAX_NAME - 1 = 127 := by decide
      omega
    have hlen_p : path.length ≤ MAX_PATH - 1 := by
      simp only [List.length_append] at htot
      have : MAX_PATH - 1 = 255 := by decide
      omega
    simp only [List.take_of_length_le hlen_i, List.take_of_length_le hlen_p] at step
    exact ⟨_, step⟩
  | foreign t =>
    obtain ⟨h1, h3, h4, h5, h6⟩ := foreign_parts t hwf
    simp only [ConfigLine.text] at hf ⊢
    have hnn : ∀ c ∈ t ++ term, c ≠ Char.ofNat 0 := by
      intro c hc
      rcases List.mem_append.mp hc with hc | hc
      · exact is_line_char_ne_nul c (h1 c hc)
      · rcases hterm1 with ht | ht
        · simp [ht] at hc
        · rw [ht] at hc
          intro hcn
          subst hcn
          revert hc
          decide
    have hc := c_str_of_no_nul _ hnn
    obtain ⟨r, hscan⟩ := scan_s_first_token t term h5 hterm1
    have hcmd : sscanf_s (t ++ term) cmd = first_token t := by
      unfold sscanf_s
      rw [hscan]
    have hskip : ¬ ((c_str (t ++ term)).headD (Char.ofNat 0) = Char.ofNat 0 ∨
        (c_str (t ++ term)).headD (Char.ofNat 0) = '#' ∨
        (c_str (t ++ term)).headD (Char.ofNat 0) = '\r' ∨
        (c_str (t ++ term)).headD (Char.ofNat 0) = '\n') := by
      rw [c_str_headD]
      cases t with
      | nil => exact absurd rfl h5
      | cons c cs =>
        simp only [List.cons_append, List.headD_cons] at h3 h4 ⊢
        have hc1 := h1 c (List.mem_cons_self _ _)
        have hn0 := is_line_char_ne_nul c hc1
        have hn1 := is_line_char_ne_newline c hc1
        tauto
    have step := ParseConfig_loop_foreign fs config _ _ _ _ cmd assets (le_refl _) hf hskip
      (by rw [hc, hcmd]; exact h6)
    simp only [ConfigLine.descriptor, List.append_nil]
    exact ⟨_, step⟩

theorem render_lines_cons (l : ConfigLine) (ls : List ConfigLine) :
    render_lines (l :: ls) = l.text ++ ['\n'] ++ render_lines ls := by
  simp [render_lines]

theorem declared_cons (fs : FileSystem) (l : ConfigLine) (ls : List ConfigLine) :
    declared fs (l :: ls) = l.descriptor fs ++ declared fs ls := by
  simp [declared]

/-- A run of well-formed lines, each ended by a newline, takes the parser loop to the
text that follows, with the declared descriptors appended in file order. -/
theorem ParseConfig_loop_lines (fs : FileSystem) (config : List Char) (ls : List ConfigLine)
    (hwf : ∀ l ∈ ls, l.wf = true) (tail : List Char) :
    ∀ (cmd : List Char) (assets : List asset_entry_t),
      assets.length + (declared fs ls).length ≤ MAX_ASSETS →
      ∃ cmd1,
        ParseConfig_loop fs config (render_lines ls ++ tail).length (render_lines ls ++ tail)
          cmd assets =
        ParseConfig_loop fs config tail.length tail cmd1 (assets ++ declared fs ls) := by
  induction ls with
  | nil =>
    intro cmd assets _
    exact ⟨cmd, by simp [render_lines, declared]⟩
  | cons l ls ih =>
    intro cmd assets hroom
    rw [declared_cons, List.length_append] at hroom
    obtain ⟨cmd1, h1⟩ := ParseConfig_loop_line fs config l (hwf l (List.mem_cons_self _ _))
      ['\n'] (render_lines ls ++ tail) (Or.inl rfl) cmd assets (by omega)
    obtain ⟨cmd2, h2⟩ := ih (fun x hx => hwf x (List.mem_cons_of_mem _ hx)) cmd1
      (assets ++ l.descriptor fs) (by rw [List.length_append]; omega)
    refine ⟨cmd2, ?_⟩
    rw [render_lines_cons, declared_cons, List.append_assoc, h1, h2, List.append_assoc]

theorem declared_length (fs : FileSystem) (ls : List ConfigLine) :
    (declared fs ls).length = directive_count ls := by
  induction ls with
  | nil => rfl
  | cons l ls ih =>
    rw [declared_cons, List.length_append, ih]
    cases l
    · simp [ConfigLine.descriptor, directive_count, ConfigLine.is_directive, List.filter_cons]
    · simp [ConfigLine.descriptor, directive_count, ConfigLine.is_directive, List.filter_cons]
      omega
    · simp [ConfigLine.descriptor, directive_count, ConfigLine.is_directive, List.filter_cons]

theorem render_lines_concat (ls : List ConfigLine) (l : ConfigLine) :
    render_lines (ls ++ [l]) = render_lines ls ++ l.text ++ ['\n'] := by
  simp [render_lines]

theorem declared_concat (fs : FileSystem) (ls : List ConfigLine) (l : ConfigLine) :
    declared fs (ls ++ [l]) = declared fs ls ++ l.descriptor fs := by
  simp [declared]

theorem ParseConfig_loop_end (fs : FileSystem) (config cmd : List Char)
    (assets : List asset_entry_t) :
    ParseConfig_loop fs config 0 [] cmd assets = ⟨decide (assets.length > 0), assets, []⟩ :=
  rfl

/-- A config made of well-formed lines is parsed into the descriptors its directives
declare; the parse succeeds when there is at least one. -/
theorem ParseConfig_lines (fs : FileSystem) (cmd0 config : List Char) (ls : List ConfigLine)
    (final_newline : Bool) (hwf : ∀ l ∈ ls, l.wf = true)
    (hroom : (declared fs ls).length ≤ MAX_ASSETS)
    (hopen : fs.fopen_r config = some (render_config ls final_newline)) :
    ParseConfig fs cmd0 config =
      ⟨decide ((declared fs ls).length > 0), declared fs ls, []⟩ := by
  unfold ParseConfig
  rw [hopen]
  simp only
  cases final_newline with
  | true =>
    obtain ⟨cmd1, h⟩ := ParseConfig_loop_lines fs config ls hwf [] cmd0 []
      (by simpa using hroom)
    simp only [List.append_nil, List.nil_append] at h
    simp only [render_config, if_true]
    rw [h]
    rfl
  | false =>
    simp only [render_config, Bool.false_eq_true, if_false]
    rcases List.eq_nil_or_concat ls with hnil | ⟨ls1, l, hcat⟩
    · subst hnil
      rfl
    · rw [List.concat_eq_append] at hcat
      subst hcat
      rw [declared_concat, List.length_append] at hroom
      have hwf1 : ∀ x ∈ ls1, x.wf = true :=
        fun x hx => hwf x (List.mem_append_left _ hx)
      have hwfl : l.wf = true := hwf l (List.mem_append_right _ (List.mem_singleton_self l))
      obtain ⟨cmd1, h⟩ := ParseConfig_loop_lines fs config ls1 hwf1 l.text cmd0 []
        (by simp only [List.length_nil]; omega)
      simp only [List.nil_append] at h
      rw [render_lines_concat, List.dropLast_concat, h, declared_concat]
      by_cases ht : l.text = []
      · have hd : l.descriptor fs = [] := by
          cases l with
          | skipped t => rfl
          | directive sep1 path sep2 ident trail =>
            simp [ConfigLine.text] at ht
          | foreign t =>
            obtain ⟨_, _, _, h5, _⟩ := foreign_parts t hwfl
            simp only [ConfigLine.text] at ht
            rw [ht] at h5
            exact absurd rfl h5
        rw [ht, hd, List.append_nil]
        rfl
      · obtain ⟨cmd2, h2⟩ := ParseConfig_loop_line fs config l hwfl [] []
          (Or.inr ⟨rfl, rfl, ht⟩) cmd1 (declared fs ls1)
          (by omega)
        simp only [List.append_nil] at h2
        rw [h2]
        rfl

/-! ## Lemmas on short `PACKER` lines -/

theorem scan_s_all_space (l : List Char) (h : ∀ c ∈ l, isspace c = true) : scan_s l = none := by
  unfold scan_s
  rw [if_pos (List.dropWhile_eq_nil_iff.mpr h)]

theorem headD_all_space (l : List Char) (h : ∀ c ∈ l, isspace c = true) :
    isspace (l.headD ' ') = true := by
  cases l with
  | nil => decide
  | cons c cs => exact h c (List.mem_cons_self _ _)

theorem term_all_space (term : List Char) (hterm : term = [] ∨ term = ['\n']) :
    ∀ c ∈ term, isspace c = true := by
  rcases hterm with h | h
  · simp [h]
  · rw [h]; decide

theorem short_directive_parts (sep1 tok sep2 : List Char)
    (h : short_directive_wf sep1 tok sep2 = true) :
    (∀ c ∈ sep1, is_blank c = true) ∧ (∀ c ∈ tok, is_token_char c = true) ∧
    (∀ c ∈ sep2, is_blank c = true) ∧ (tok = [] ∨ sep1 ≠ []) ∧
    (short_directive sep1 tok sep2).length ≤ 126 := by
  simp only [short_directive_wf, Bool.and_eq_true, List.all_eq_true, decide_eq_true_eq,
    Bool.or_eq_true, List.isEmpty_iff, Bool.not_eq_true', List.isEmpty_eq_false] at h
  obtain ⟨⟨⟨⟨h1, h2⟩, h3⟩, h4⟩, h5⟩ := h
  exact ⟨h1, h2, h3, h4, h5⟩

/-- What the two `sscanf` calls find in the buffer of a `PACKER` line with fewer than
two tokens after the keyword: the keyword is recognised and the second call does not
return 2. -/
theorem short_directive_scan (sep1 tok sep2 term : List Char)
    (h : short_directive_wf sep1 tok sep2 = true) (hterm : term = [] ∨ term = ['\n'])
    (cmd : List Char) :
    c_str (short_directive sep1 tok sep2 ++ term) = short_directive sep1 tok sep2 ++ term ∧
    (short_directive sep1 tok sep2 ++ term).headD (Char.ofNat 0) = 'P' ∧
    sscanf_s (short_directive sep1 tok sep2 ++ term) cmd = "PACKER".toList ∧
    (sscanf_PACKER (short_directive sep1 tok sep2 ++ term)).ret ≠ 2 := by
  obtain ⟨h1, h2, h3, h4, _⟩ := short_directive_parts sep1 tok sep2 h
  have hsp1 : ∀ c ∈ sep1, isspace c = true := fun c hc => is_blank_isspace c (h1 c hc)
  have hsp2 : ∀ c ∈ sep2, isspace c = true := fun c hc => is_blank_isspace c (h3 c hc)
  have hspt := term_all_space term hterm
  have htk : ∀ c ∈ tok, isspace c = false := fun c hc => is_token_char_not_space c (h2 c hc)
  have hkw : ∀ c ∈ "PACKER".toList, isspace c = false := by decide
  have hsp2t : ∀ c ∈ sep2 ++ term, isspace c = true := by
    intro c hc
    rcases List.mem_append.mp hc with hc | hc
    · exact hsp2 c hc
    · exact hspt c hc
  have e1 : short_directive sep1 tok sep2 ++ term =
      [] ++ "PACKER".toList ++ (sep1 ++ (tok ++ (sep2 ++ term))) := by
    simp only [short_directive, List.append_assoc, List.nil_append]
  have e2 : short_directive sep1 tok sep2 ++ term =
      "PACKER".toList ++ (sep1 ++ tok ++ (sep2 ++ term)) := by
    simp only [short_directive, List.append_assoc]
  have hhead : isspace ((sep1 ++ (tok ++ (sep2 ++ term))).headD ' ') = true := by
    rcases h4 with ht | hs
    · subst ht
      apply headD_all_space
      intro c hc
      rcases List.mem_append.mp hc with hc | hc
      · exact hsp1 c hc
      · exact hsp2t c (by simpa using hc)
    · cases sep1 with
      | nil => exact absurd rfl hs
      | cons c cs => exact hsp1 c (List.mem_cons_self _ _)
  have s0 := scan_s_token [] "PACKER".toList (sep1 ++ (tok ++ (sep2 ++ term))) (by simp)
    (by decide) hkw hhead
  refine ⟨?_, ?_, ?_, ?_⟩
  · apply c_str_of_no_nul
    intro c hc
    simp only [short_directive, List.mem_append] at hc
    rcases hc with (((hc | hc) | hc) | hc) | hc
    · intro hcn
      subst hcn
      revert hc
      decide
    · exact isspace_ne_nul c (hsp1 c hc)
    · exact is_token_char_ne_nul c (h2 c hc)
    · exact isspace_ne_nul c (hsp2 c hc)
    · exact isspace_ne_nul c (hspt c hc)
  · simp only [short_directive, String.toList, List.cons_append, List.headD_cons]
  · unfold sscanf_s
    rw [e1, s0]
  · unfold sscanf_PACKER
    rw [e2, scan_literal_append]
    by_cases ht : tok = []
    · subst ht
      have hall : ∀ c ∈ sep1 ++ [] ++ (sep2 ++ term), isspace c = true := by
        intro c hc
        simp only [List.append_nil, List.mem_append] at hc
        rcases hc with hc | hc | hc
        · exact hsp1 c hc
        · exact hsp2 c hc
        · exact hspt c hc
      simp only [scan_s_all_space _ hall]
      decide
    · have s1 := scan_s_token sep1 tok (sep2 ++ term) hsp1 ht htk (headD_all_space _ hsp2t)
      simp only [s1, scan_s_all_space _ hsp2t]
      decide

theorem short_directive_text (sep1 tok sep2 : List Char)
    (h : short_directive_wf sep1 tok sep2 = true) :
    (∀ c ∈ short_directive sep1 tok sep2, c ≠ '\n') ∧ short_directive sep1 tok sep2 ≠ [] := by
  obtain ⟨h1, h2, h3, _, _⟩ := short_directive_parts sep1 tok sep2 h
  constructor
  · intro c hc
    simp only [short_directive, List.mem_append] at hc
    rcases hc with ((hc | hc) | hc) | hc
    · intro hcn
      subst hcn
      revert hc
      decide
    · exact is_blank_ne_newline c (h1 c hc)
    · exact not_space_ne_newline c (is_token_char_not_space c (h2 c hc))
    · exact is_blank_ne_newline c (h3 c hc)
  · simp [short_directive]

/-- The parser loop stops with a failure on a short `PACKER` line, whatever follows it,
and leaves the descriptors stored so far. -/
theorem ParseConfig_loop_short (fs : FileSystem) (config : List Char)
    (sep1 tok sep2 term rest cmd : List Char) (assets : List asset_entry_t)
    (h : short_directive_wf sep1 tok sep2 = true)
    (hterm : term = ['\n'] ∨ (term = [] ∧ rest = [])) :
    ParseConfig_loop fs config (short_directive sep1 tok sep2 ++ term ++ rest).length
      (short_directive sep1 tok sep2 ++ term ++ rest) cmd assets =
      ⟨false, assets, [config]⟩ := by
  obtain ⟨hnl, hne⟩ := short_directive_text sep1 tok sep2 h
  obtain ⟨_, _, _, _, hlen⟩ := short_directive_parts sep1 tok sep2 h
  have hterm1 : term = [] ∨ term = ['\n'] := by
    rcases hterm with ht | ht
    · exact Or.inr ht
    · exact Or.inl ht.1
  have hterm2 : term = ['\n'] ∨ (term = [] ∧ rest = [] ∧ short_directive sep1 tok sep2 ≠ []) := by
    rcases hterm with ht | ht
    · exact Or.inl ht
    · exact Or.inr ⟨ht.1, ht.2, hne⟩
  have hf := fgets_line _ term rest hnl hlen hterm2
  obtain ⟨hc, hhead, hs, hp⟩ := short_directive_scan sep1 tok sep2 term h hterm1 cmd
  apply ParseConfig_loop_invalid fs config _ _ _ _ cmd assets (le_refl _) hf
  · rw [c_str_headD, hhead]
    decide
  · rw [hc, hs]
    decide
  · rw [hc]
    exact hp

/-! ## Claims on the config parser -/

/-- C7 (amended): for a config file in which every line has at most 126 characters and is
either blank (empty, or a lone carriage return), a `#` comment, or a well-formed
directive `PACKER <path> <identifier>` without leading white space (tokens free of
NUL), with at least 1 and at most 512 directive lines, `ParseConfig` succeeds, the count
is the number of directive lines, and descriptor `i` holds the identifier and the path of
the `i`-th directive line in file order, with the size probed by `stat`, or 0 when the
probe fails. -/
theorem ParseConfig_strict_config (fs : FileSystem) (cmd0 config : List Char)
    (ls : List ConfigLine) (final_newline : Bool)
    (hlines : ∀ l ∈ ls, l.wf = true ∧ l.strict = true)
    (hopen : fs.fopen_r config = some (render_config ls final_newline))
    (hmin : 1 ≤ directive_count ls) (hmax : directive_count ls ≤ 512) :
    (ParseConfig fs cmd0 config).ret = true ∧
    (ParseConfig fs cmd0 config).assets.length = directive_count ls ∧
    (ParseConfig fs cmd0 config).assets = declared fs ls := by
  have hlen := declared_length fs ls
  rw [ParseConfig_lines fs cmd0 config ls final_newline (fun l hl => (hlines l hl).1)
    (by rw [hlen]; exact hmax) hopen]
  refine ⟨?_, hlen, rfl⟩
  simp only [decide_eq_true_eq]
  omega

theorem ParseConfig_strict_config_witness :
    (∀ l ∈ lines_strict, l.wf = true ∧ l.strict = true) ∧
    (fs_config (render_config lines_strict true)).fopen_r "cfg".toList
      = some (render_config lines_strict true) ∧
    render_config lines_strict true
      = "# assets\nPACKER a A\n\nPACKER\timg/b.png  B\r\n".toList ∧
    directive_count lines_strict = 2 ∧
    (ParseConfig (fs_config (render_config lines_strict true)) [] "cfg".toList).assets
      = [⟨"A".toList, "a".toList, 0, 5⟩, ⟨"B".toList, "img/b.png".toList, 0, 0⟩] :=
  ⟨by decide, by decide, by decide, by decide,
    (ParseConfig_strict_config (fs_config (render_config lines_strict true)) [] "cfg".toList
      lines_strict true (by decide) (by decide) (by decide) (by decide)).2.2.trans
      (by decide)⟩

/-- C7 as stated fails for a long comment line: `fgets` cuts the 137-character comment
after 127 characters and the rest of the comment, `PACKER x Y`, is read as a directive,
so the file with one directive line yields two descriptors. -/
theorem ParseConfig_long_comment :
    config_long_comment =
      ('#' :: List.replicate 126 ' ' ++ "PACKER x Y".toList) ++ "\n".toList ++
        "PACKER a A".toList ++ "\n".toList ∧
    ParseConfig (fs_config config_long_comment) [] "cfg".toList =
      ⟨true, [⟨"Y".toList, "x".toList, 0, 0⟩, ⟨"A".toList, "a".toList, 0, 5⟩], []⟩ := by
  decide

/-- C8 (evaluation at the failing input): a line holding a single space directly after a
valid directive makes `ParseConfig` fail, whereas the same config without that line is
accepted. -/
theorem ParseConfig_whitespace_line (cmd0 : List Char) :
    ParseConfig (fs_config "PACKER a A\n \n".toList) cmd0 "cfg".toList =
      ⟨false, [⟨"A".toList, "a".toList, 0, 5⟩], ["cfg".toList]⟩ ∧
    ParseConfig (fs_config "PACKER a A\n".toList) cmd0 "cfg".toList =
      ⟨true, [⟨"A".toList, "a".toList, 0, 5⟩], []⟩ :=
  ⟨rfl, rfl⟩

/-- C9 (amended): a line whose first token does not begin with `PACKER` is skipped
without error: a config made of lines of at most 126 characters that are blank,
comments, well-formed directives or such foreign lines (free of NUL), with at least 1 and
at most 512 directives, is accepted and yields exactly the descriptors of its
directives. -/
theorem ParseConfig_foreign_lines_skipped (fs : FileSystem) (cmd0 config : List Char)
    (ls : List ConfigLine) (final_newline : Bool)
    (hlines : ∀ l ∈ ls, l.wf = true ∧ (l.strict = true ∨ l.is_foreign = true))
    (hopen : fs.fopen_r config = some (render_config ls final_newline))
    (hmin : 1 ≤ directive_count ls) (hmax : directive_count ls ≤ 512) :
    (ParseConfig fs cmd0 config).ret = true ∧
    (ParseConfig fs cmd0 config).assets = declared fs ls ∧
    (ParseConfig fs cmd0 config).assets.length = directive_count ls := by
  have hlen := declared_length fs ls
  rw [ParseConfig_lines fs cmd0 config ls final_newline (fun l hl => (hlines l hl).1)
    (by rw [hlen]; exact hmax) hopen]
  refine ⟨?_, rfl, hlen⟩
  simp only [decide_eq_true_eq]
  omega

theorem ParseConfig_foreign_lines_skipped_witness :
    (∀ l ∈ lines_unknown, l.wf = true ∧ (l.strict = true ∨ l.is_foreign = true)) ∧
    (fs_config (render_config lines_unknown false)).fopen_r "cfg".toList
      = some (render_config lines_unknown false) ∧
    render_config lines_unknown false = "# assets\nFOO a b\nPACKER a A".toList ∧
    directive_count lines_unknown = 1 ∧
    (ParseConfig (fs_config (render_config lines_unknown false)) [] "cfg".toList).assets
      = [⟨"A".toList, "a".toList, 0, 5⟩] :=
  ⟨by decide, by decide, by decide, by decide,
    (ParseConfig_foreign_lines_skipped (fs_config (render_config lines_unknown false)) []
      "cfg".toList lines_unknown false (by decide) (by decide) (by decide)
      (by decide)).2.1.trans (by decide)⟩

/-- C9 as stated fails: a config with the line `FOO a b` is accepted, and so is the
line `PACKERX a b`, which is read as a directive with path `X` and identifier `a`. -/
theorem ParseConfig_unknown_keyword_accepted :
    ParseConfig (fs_config "FOO a b\nPACKER a A\n".toList) [] "cfg".toList =
      ⟨true, [⟨"A".toList, "a".toList, 0, 5⟩], []⟩ ∧
    ParseConfig (fs_config "PACKERX a b\n".toList) [] "cfg".toList =
      ⟨true, [⟨"a".toList, "X".toList, 0, 0⟩], []⟩ := by
  decide

/-- C10 (amended): when well-formed lines (of which at most 512 are directives) are
followed by a `PACKER` line with zero or one token after the keyword, `ParseConfig`
returns failure whatever comes after that line, and the descriptors reported are those
of the directives before it: the count is their number, it is not reset to 0.  A
directive line may carry further tokens after its identifier; it is then recorded from
its first two tokens like any other directive. -/
theorem ParseConfig_short_directive_fails (fs : FileSystem) (cmd0 config : List Char)
    (ls : List ConfigLine) (sep1 tok sep2 term rest : List Char)
    (hwf : ∀ l ∈ ls, l.wf = true) (hshort : short_directive_wf sep1 tok sep2 = true)
    (hterm : term = ['\n'] ∨ (term = [] ∧ rest = []))
    (hmax : directive_count ls ≤ 512)
    (hopen : fs.fopen_r config =
      some (render_lines ls ++ (short_directive sep1 tok sep2 ++ term ++ rest))) :
    (ParseConfig fs cmd0 config).ret = false ∧
    (ParseConfig fs cmd0 config).assets = declared fs ls ∧
    (ParseConfig fs cmd0 config).assets.length = directive_count ls := by
  have hlen := declared_length fs ls
  unfold ParseConfig
  rw [hopen]
  simp only
  obtain ⟨cmd1, h⟩ := ParseConfig_loop_lines fs config ls hwf
    (short_directive sep1 tok sep2 ++ term ++ rest) cmd0 []
    (by simp only [List.length_nil, Nat.zero_add]; rw [hlen]; exact hmax)
  rw [h, ParseConfig_loop_short fs config sep1 tok sep2 term rest cmd1 _ hshort hterm]
  simp only [List.nil_append]
  exact ⟨trivial, trivial, hlen⟩

theorem ParseConfig_short_directive_fails_witness :
    (∀ l ∈ lines_extra, l.wf = true) ∧
    short_directive_wf " ".toList "b".toList [] = true ∧
    render_lines lines_extra ++ (short_directive " ".toList "b".toList [] ++ ['\n'] ++
      "PACKER c C\n".toList) = "PACKER a A extra\nPACKER b\nPACKER c C\n".toList ∧
    (ParseConfig (fs_config "PACKER a A extra\nPACKER b\nPACKER c C\n".toList) []
      "cfg".toList).ret = false ∧
    (ParseConfig (fs_config "PACKER a A extra\nPACKER b\nPACKER c C\n".toList) []
      "cfg".toList).assets = declared (fs_config
        "PACKER a A extra\nPACKER b\nPACKER c C\n".toList) lines_extra ∧
    (ParseConfig (fs_config "PACKER a A extra\nPACKER b\nPACKER c C\n".toList) []
      "cfg".toList).assets.length = directive_count lines_extra :=
  ⟨by decide, by decide, by decide,
    ParseConfig_short_directive_fails
      (fs_config "PACKER a A extra\nPACKER b\nPACKER c C\n".toList) [] "cfg".toList
      lines_extra " ".toList "b".toList [] ['\n'] "PACKER c C\n".toList
      (by decide) (by decide) (Or.inl rfl) (by decide) (by decide)⟩

/-- C10 as stated fails twice: a directive with three tokens after the keyword is
accepted, and a failure on a one-token line leaves the count at the number of
directives already recorded (here 1), not 0. -/
theorem ParseConfig_token_count_counterexample :
    ParseConfig (fs_config "PACKER a A extra\n".toList) [] "cfg".toList =
      ⟨true, [⟨"A".toList, "a".toList, 0, 5⟩], []⟩ ∧
    ParseConfig (fs_config "PACKER a A\nPACKER b\n".toList) [] "cfg".toList =
      ⟨false, [⟨"A".toList, "a".toList, 0, 5⟩], ["cfg".toList]⟩ := by
  decide

/-! ## Claims on the table generator -/

/-- C5: for a config that `ParseConfig` accepts, with `N` descriptors (then
`1 ≤ N ≤ 512`), the enumeration written by `CreateHeader` for the descriptors handed on
by `CreatePacker` opens right after the prologue, consists of exactly the `N` entries
`ASSET_<identifier i> = i` in declaration order, then the single sentinel
`ASSET_COUNT = N`, and is closed right after it.  When the config is made of
well-formed lines, `N` is the number of its directive lines and the identifiers are
those of the directive lines in file order. -/
theorem CreateHeader_enumeration (fs : FileSystem) (cmd0 config output_name : List Char)
    (hparse : (ParseConfig fs cmd0 config).ret = true)
    (hcreate : fs.fopen_w (snprintf_name output_name ".gen.h".toList) = true) :
    1 ≤ (ParseConfig fs cmd0 config).assets.length ∧
    (ParseConfig fs cmd0 config).assets.length ≤ 512 ∧
    (((ParseConfig fs cmd0 config).assets.map (fun a => a.name)).enum.map
      (fun p => "    ASSET_".toList ++ p.2 ++ " = ".toList ++ (Nat.repr p.1).toList ++
        ",\n".toList)).length = (ParseConfig fs cmd0 config).assets.length ∧
    (∃ rest,
      (CreateHeader fs (CreatePacker fs (ParseConfig fs cmd0 config).assets output_name).assets
        output_name).header_file =
      some (header_prologue (ParseConfig fs cmd0 config).assets.length ++
        ((((ParseConfig fs cmd0 config).assets.map (fun a => a.name)).enum.map
          (fun p => "    ASSET_".toList ++ p.2 ++ " = ".toList ++ (Nat.repr p.1).toList ++
            ",\n".toList)).flatten ++
        ("    ASSET_COUNT = ".toList ++
          (Nat.repr (ParseConfig fs cmd0 config).assets.length).toList ++ "\n".toList ++
          "\x7d asset_id;\n\n".toList)) ++ rest)) ∧
    (∀ (ls : List ConfigLine) (final_newline : Bool), (∀ l ∈ ls, l.wf = true) →
      directive_count ls ≤ 512 →
      fs.fopen_r config = some (render_config ls final_newline) →
      (ParseConfig fs cmd0 config).assets = declared fs ls ∧
      (ParseConfig fs cmd0 config).assets.length = directive_count ls) := by
  have hb := ParseConfig_bounds fs cmd0 config
  have hlo := hb.2 hparse
  have hhi : (ParseConfig fs cmd0 config).assets.length ≤ 512 := hb.1
  have hlen : (CreatePacker fs (ParseConfig fs cmd0 config).assets output_name).assets.length
      = (ParseConfig fs cmd0 config).assets.length := by
    have h := congrArg List.length
      (CreatePacker_names fs (ParseConfig fs cmd0 config).assets output_name)
    simpa using h
  refine ⟨hlo, hhi, by simp [List.enum], ?_, ?_⟩
  · rw [CreateHeader_created fs _ output_name hcreate]
    simp only [hlen, List.enum]
    rw [enum_entries_small _ 0 (by rw [hlen]; omega),
      enumFrom_names (fun nm i => "    ASSET_".toList ++ nm ++ " = ".toList ++
        (Nat.repr i).toList ++ ",\n".toList),
      CreatePacker_names, header_middle, fmt_lld_small _ (by omega)]
    exact ⟨"typedef struct\n\x7b\n".toList ++ "    size_t offset;\n".toList ++
      "    size_t size;\n".toList ++ "\x7d asset_t;\n\n".toList ++
      "static asset_t ASSET_TABLE[] = \x7b\n".toList ++
      (List.map table_entry
        (CreatePacker fs (ParseConfig fs cmd0 config).assets output_name).assets).flatten ++
      "\x7d;\n".toList, by simp only [List.append_assoc]⟩
  · intro ls final_newline hwf hmax hopen
    have hdl := declared_length fs ls
    rw [ParseConfig_lines fs cmd0 config ls final_newline hwf (by rw [hdl]; exact hmax)
      hopen]
    exact ⟨rfl, hdl⟩

theorem CreateHeader_enumeration_witness :
    (ParseConfig fs_background [] "cfg".toList).ret = true ∧
    fs_background.fopen_w (snprintf_name "out".toList ".gen.h".toList) = true ∧
    ((ParseConfig fs_background [] "cfg".toList).assets.map (fun a => a.name)).enum
      = [(0, "BACKGROUND".toList)] ∧
    (1 ≤ (ParseConfig fs_background [] "cfg".toList).assets.length ∧
    (ParseConfig fs_background [] "cfg".toList).assets.length ≤ 512 ∧
    (((ParseConfig fs_background [] "cfg".toList).assets.map (fun a => a.name)).enum.map
      (fun p => "    ASSET_".toList ++ p.2 ++ " = ".toList ++ (Nat.repr p.1).toList ++
        ",\n".toList)).length = (ParseConfig fs_background [] "cfg".toList).assets.length ∧
    ∃ rest,
      (CreateHeader fs_background
        (CreatePacker fs_background (ParseConfig fs_background [] "cfg".toList).assets
          "out".toList).assets "out".toList).header_file =
      some (header_prologue (ParseConfig fs_background [] "cfg".toList).assets.length ++
        ((((ParseConfig fs_background [] "cfg".toList).assets.map (fun a => a.name)).enum.map
          (fun p => "    ASSET_".toList ++ p.2 ++ " = ".toList ++ (Nat.repr p.1).toList ++
            ",\n".toList)).flatten ++
        ("    ASSET_COUNT = ".toList ++
          (Nat.repr (ParseConfig fs_background [] "cfg".toList).assets.length).toList ++
          "\n".toList ++ "\x7d asset_id;\n\n".toList)) ++ rest)) :=
  have h := CreateHeader_enumeration fs_background [] "cfg".toList "out".toList
    (by decide) (by decide)
  ⟨by decide, by decide, by decide, h.1, h.2.1, h.2.2.1, h.2.2.2.1⟩

/-- C6: for every descriptor list given to `CreateHeader`, the text of the header ends
with the `ASSET_TABLE` literal, which holds exactly one entry per descriptor, in
declaration order, the entry of descriptor `i` being
`[ASSET_<name_i>] = {.offset = <offset_i>, .size = <size_i>},` with both numbers in
decimal; the literal is closed right after the last entry. -/
theorem CreateHeader_table (fs : FileSystem) (assets : List asset_entry_t)
    (output_name : List Char)
    (hcreate : fs.fopen_w (snprintf_name output_name ".gen.h".toList) = true) :
    (assets.map (fun a => "    [ASSET_".toList ++ a.name ++ "] = \x7b.offset = ".toList ++
      (Nat.repr a.offset).toList ++ ", .size = ".toList ++ (Nat.repr a.size).toList ++
      "\x7d,\n".toList)).length = assets.length ∧
    ∃ before,
      (CreateHeader fs assets output_name).ret = true ∧
      (CreateHeader fs assets output_name).header_file =
      some (before ++ "static asset_t ASSET_TABLE[] = \x7b\n".toList ++
        (assets.map (fun a => "    [ASSET_".toList ++ a.name ++
          "] = \x7b.offset = ".toList ++ (Nat.repr a.offset).toList ++
          ", .size = ".toList ++ (Nat.repr a.size).toList ++ "\x7d,\n".toList)).flatten ++
        "\x7d;\n".toList) := by
  refine ⟨by simp, ?_⟩
  rw [CreateHeader_created fs _ output_name hcreate]
  refine ⟨header_prologue assets.length ++
    ((assets.enum).map (fun p => enum_entry p.2.name p.1)).flatten ++
    ("    ASSET_COUNT = ".toList ++ fmt_lld assets.length ++ "\n".toList ++
      "\x7d asset_id;\n\n".toList ++ "typedef struct\n\x7b\n".toList ++
      "    size_t offset;\n".toList ++ "    size_t size;\n".toList ++
      "\x7d asset_t;\n\n".toList), rfl, ?_⟩
  have htab : assets.map table_entry = assets.map (fun a => "    [ASSET_".toList ++ a.name ++
      "] = \x7b.offset = ".toList ++ (Nat.repr a.offset).toList ++
      ", .size = ".toList ++ (Nat.repr a.size).toList ++ "\x7d,\n".toList) := rfl
  rw [htab, header_middle]
  simp only [List.append_assoc]

theorem CreateHeader_table_witness :
    fs_background.fopen_w (snprintf_name "out".toList ".gen.h".toList) = true ∧
    (CreateHeader fs_background [⟨"BACKGROUND".toList, "img/bg.png".toList, 8, 100⟩]
      "out".toList).header_file = some
      ("// Auto-generated asset pack - DO NOT EDIT!\n// Generated by packer tool\n".toList ++
       "// Total assets: 1\n\n#pragma once\n\n#include <stdint.h>\n\n".toList ++
       "#define PACKER_MAGIC 0x4E584150\n#define PACKER_VERSION 1\n\n".toList ++
       "typedef enum\n\x7b\n    ASSET_BACKGROUND = 0,\n    ASSET_COUNT = 1\n".toList ++
       "\x7d asset_id;\n\ntypedef struct\n\x7b\n    size_t offset;\n".toList ++
       "    size_t size;\n\x7d asset_t;\n\nstatic asset_t ASSET_TABLE[] = \x7b\n".toList ++
       "    [ASSET_BACKGROUND] = \x7b.offset = 8, .size = 100\x7d,\n\x7d;\n".toList) ∧
    ([(⟨"BACKGROUND".toList, "img/bg.png".toList, 8, 100⟩ : asset_entry_t)].map
      (fun a => "    [ASSET_".toList ++ a.name ++ "] = \x7b.offset = ".toList ++
        (Nat.repr a.offset).toList ++ ", .size = ".toList ++ (Nat.repr a.size).toList ++
        "\x7d,\n".toList)).length
      = [(⟨"BACKGROUND".toList, "img/bg.png".toList, 8, 100⟩ : asset_entry_t)].length :=
  ⟨by decide, by decide,
    (CreateHeader_table fs_background [⟨"BACKGROUND".toList, "img/bg.png".toList, 8, 100⟩]
      "out".toList (by decide)).1⟩

/-! ## Lemmas on the name sanitizer -/

theorem isLower_iff (c : Char) : c.isLower = true ↔ 97 ≤ c.toNat ∧ c.toNat ≤ 122 := by
  simp only [Char.isLower, Bool.and_eq_true, decide_eq_true_eq, ge_iff_le]
  rw [UInt32.le_def, UInt32.le_def, BitVec.le_def, BitVec.le_def]
  simp [Char.toNat, UInt32.toNat]

/-- Upper-casing an alphanumeric character gives a letter `A`-`Z` or a digit. -/
theorem toUpper_code_char (c : Char) (h : c.isAlphanum = true) :
    is_code_char c.toUpper = true := by
  by_cases hl : 97 ≤ c.toNat ∧ c.toNat ≤ 122
  · have hu : c.toUpper = Char.ofNat (c.toNat - 32) := by
      simp only [Char.toUpper, ge_iff_le]
      rw [if_pos hl]
    rw [hu]
    obtain ⟨h1, h2⟩ := hl
    generalize c.toNat = n at h1 h2
    interval_cases n <;> decide
  · have hu : c.toUpper = c := by
      simp only [Char.toUpper, ge_iff_le]
      rw [if_neg hl]
    have hnl : c.isLower = false := by
      rw [← Bool.not_eq_true, isLower_iff]
      exact hl
    rw [hu]
    simp only [Char.isAlphanum, Char.isAlpha, hnl, Bool.or_false, Bool.or_eq_true] at h
    simp only [is_code_char, Bool.or_eq_true]
    left
    exact h

theorem SanitizeName_loop_chars (cs : List Char) :
    ∀ out : List Char, (∀ c ∈ out, is_code_char c = true) →
      ∀ c ∈ SanitizeName_loop cs out, is_code_char c = true := by
  induction cs with
  | nil =>
    intro out h
    simpa [SanitizeName_loop] using h
  | cons x xs ih =>
    intro out h
    simp only [SanitizeName_loop]
    split_ifs with h1 h2 h3
    · apply ih
      intro c hc
      rcases List.mem_append.mp hc with hc | hc
      · exact h c hc
      · rw [List.mem_singleton.mp hc]
        exact toUpper_code_char x h2
    · apply ih
      intro c hc
      rcases List.mem_append.mp hc with hc | hc
      · exact h c hc
      · rw [List.mem_singleton.mp hc]
        decide
    · exact ih out h
    · exact h

theorem SanitizeName_loop_bound (cs : List Char) :
    ∀ out : List Char, out.length ≤ MAX_NAME - 1 →
      (SanitizeName_loop cs out).length ≤ MAX_NAME - 1 := by
  induction cs with
  | nil =>
    intro out h
    simpa [SanitizeName_loop] using h
  | cons x xs ih =>
    intro out h
    simp only [SanitizeName_loop]
    split_ifs with h1 h2 h3
    · exact ih _ (by simp only [List.length_append, List.length_singleton]; omega)
    · exact ih _ (by simp only [List.length_append, List.length_singleton]; omega)
    · exact ih out h
    · exact h

theorem SanitizeName_loop_length (cs : List Char) :
    ∀ out : List Char, (SanitizeName_loop cs out).length ≤ out.length + cs.length := by
  induction cs with
  | nil =>
    intro out
    simp [SanitizeName_loop]
  | cons x xs ih =>
    intro out
    simp only [SanitizeName_loop, List.length_cons]
    split_ifs with h1 h2 h3
    · have := ih (out ++ [x.toUpper])
      simp only [List.length_append, List.length_singleton] at this
      omega
    · have := ih (out ++ ['_'])
      simp only [List.length_append, List.length_singleton] at this
      omega
    · have := ih out
      omega
    · omega

theorem strrchr_length (s : List Char) (c : Char) :
    ∀ r : List Char, strrchr s c = some r → r.length ≤ s.length := by
  induction s with
  | nil =>
    intro r h
    simp [strrchr] at h
  | cons x xs ih =>
    intro r h
    simp only [strrchr] at h
    cases hx : strrchr xs c with
    | some r1 =>
      rw [hx] at h
      simp only [Option.some.injEq] at h
      rw [← h]
      have := ih r1 hx
      simp only [List.length_cons]
      omega
    | none =>
      rw [hx] at h
      simp only at h
      split_ifs at h
      simp only [Option.some.injEq] at h
      rw [← h]

/-! ## Claims on the name sanitizer -/

/-- C18 (evaluation at the failing input): on `dir/sub\file.png` the sanitizer keeps the
text after the last `/` and only drops the backslash, giving `SUBFILE_PNG`, whereas the
reference definition, for which both slashes are separators, gives `FILE_PNG`. -/
theorem SanitizeName_mixed_separators :
    SanitizeName "dir/sub\\file.png".toList = "SUBFILE_PNG".toList ∧
    SanitizeName_reference "dir/sub\\file.png".toList = "FILE_PNG".toList := by
  decide

/-- C19: the output of `SanitizeName` holds only the characters `A`-`Z`, `0`-`9` and `_`,
has at most 127 (`MAX_NAME - 1`) characters and at most as many as its input, so with
its terminator it fits a buffer of `MAX_NAME` bytes. -/
theorem SanitizeName_output (s : List Char) :
    (∀ c ∈ SanitizeName s, is_code_char c = true) ∧
    (SanitizeName s).length ≤ 127 ∧
    (SanitizeName s).length ≤ s.length ∧
    (SanitizeName s).length + 1 ≤ MAX_NAME := by
  have hb : (SanitizeName s).length ≤ MAX_NAME - 1 :=
    SanitizeName_loop_bound _ [] (by simp)
  have h127 : MAX_NAME - 1 = 127 := by decide
  have h128 : MAX_NAME = 128 := by decide
  refine ⟨SanitizeName_loop_chars _ [] (by simp), by omega, ?_, by omega⟩
  unfold SanitizeName
  simp only
  have hsuffix : ∀ r : List Char, r.length ≤ s.length →
      (SanitizeName_loop (r.drop 1) []).length ≤ s.length := by
    intro r hr
    have h1 := SanitizeName_loop_length (r.drop 1) []
    simp only [List.length_nil, List.length_drop, Nat.zero_add] at h1
    omega
  cases h1 : strrchr s '/' with
  | some r =>
    simp only
    exact hsuffix r (strrchr_length s '/' r h1)
  | none =>
    simp only
    cases h2 : strrchr s '\\' with
    | some r =>
      simp only
      exact hsuffix r (strrchr_length s '\\' r h2)
    | none =>
      simp only
      have h3 := SanitizeName_loop_length s []
      simpa using h3

/-! ## Lemmas on a failing pack assembly -/

/-- When descriptor `k` is the first whose source cannot be opened, the loop fails, the
pack holds what was written before plus the sources before `k`, and the descriptors
after `k` are left as they were. -/
theorem CreatePacker_loop_fail_at (fs : FileSystem) (pf : List Char) (l : List asset_entry_t) :
    ∀ (k : Nat) (a : asset_entry_t) (t : Nat) (out : List UInt8),
      l[k]? = some a → fs.fopen_rb a.path = none →
      (∀ b ∈ l.take k, fs.fopen_rb b.path ≠ none) →
      (CreatePacker_loop fs pf l t out).ret = false ∧
      (CreatePacker_loop fs pf l t out).pack_file =
        some (out ++ (l.take k).flatMap (source_bytes fs)) ∧
      (CreatePacker_loop fs pf l t out).assets.drop (k + 1) = l.drop (k + 1) := by
  induction l with
  | nil =>
    intro k a t out hk
    simp at hk
  | cons b rest ih =>
    intro k a t out hk hnone hpre
    cases k with
    | zero =>
      simp only [List.getElem?_cons_zero, Option.some.injEq] at hk
      subst hk
      simp [CreatePacker_loop, hnone]
    | succ j =>
      simp only [List.getElem?_cons_succ] at hk
      have hb : fs.fopen_rb b.path ≠ none := hpre b (by simp)
      have hrest : ∀ c ∈ rest.take j, fs.fopen_rb c.path ≠ none := by
        intro c hc
        exact hpre c (by simp [hc])
      cases hopen : fs.fopen_rb b.path with
      | none => exact absurd hopen hb
      | some content =>
        obtain ⟨h1, h2, h3⟩ := ih j a ((t + b.size) % SIZE_T_MOD)
          (copy_loop content.length content out) hk hnone hrest
        simp only [CreatePacker_loop, hopen]
        refine ⟨h1, ?_, ?_⟩
        · rw [h2, copy_loop_eq _ _ _ (le_refl _)]
          simp [source_bytes, hopen]
        · simpa using h3

/-- The loop only consults the sources up to the first one that cannot be opened: a file
system that answers alike for these gives the same result. -/
theorem CreatePacker_loop_congr (fs fs1 : FileSystem) (pf : List Char)
    (l : List asset_entry_t) :
    ∀ (k : Nat) (a : asset_entry_t) (t : Nat) (out : List UInt8),
      l[k]? = some a → fs.fopen_rb a.path = none →
      (∀ b ∈ l.take (k + 1), fs1.fopen_rb b.path = fs.fopen_rb b.path) →
      CreatePacker_loop fs1 pf l t out = CreatePacker_loop fs pf l t out := by
  induction l with
  | nil =>
    intro k a t out hk
    simp at hk
  | cons b rest ih =>
    intro k a t out hk hnone hagree
    have hb : fs1.fopen_rb b.path = fs.fopen_rb b.path := hagree b (by simp)
    cases k with
    | zero =>
      simp only [List.getElem?_cons_zero, Option.some.injEq] at hk
      subst hk
      simp only [CreatePacker_loop, hb, hnone]
    | succ j =>
      simp only [List.getElem?_cons_succ] at hk
      have hrest : ∀ c ∈ rest.take (j + 1), fs1.fopen_rb c.path = fs.fopen_rb c.path := by
        intro c hc
        exact hagree c (by simp [hc])
      simp only [CreatePacker_loop, hb]
      cases hopen : fs.fopen_rb b.path with
      | none => rfl
      | some content =>
        simp only
        rw [ih j a _ _ hk hnone hrest]

theorem CreatePacker_unclosed_loop (fs : FileSystem) (pf : List Char)
    (l : List asset_entry_t) :
    ∀ (t : Nat) (out : List UInt8), (CreatePacker_loop fs pf l t out).unclosed = [] := by
  induction l with
  | nil =>
    intro t out
    rfl
  | cons b rest ih =>
    intro t out
    simp only [CreatePacker_loop]
    cases hopen : fs.fopen_rb b.path with
    | none => rfl
    | some content => exact ih _ _

/-- `CreatePacker` leaves no handle open, whether it succeeds or not. -/
theorem CreatePacker_unclosed (fs : FileSystem) (assets : List asset_entry_t)
    (output_name : List Char) : (CreatePacker fs assets output_name).unclosed = [] := by
  by_cases hw : fs.fopen_w (snprintf_name output_name ".gen.nxap".toList) = true
  · rw [CreatePacker_created fs assets output_name hw]
    exact CreatePacker_unclosed_loop fs _ assets _ _
  · rw [CreatePacker_not_created fs assets output_name hw]

/-- `CreateHeader` leaves no handle open, whether it succeeds or not. -/
theorem CreateHeader_unclosed (fs : FileSystem) (assets : List asset_entry_t)
    (output_name : List Char) : (CreateHeader fs assets output_name).unclosed = [] := by
  unfold CreateHeader
  simp only
  split_ifs <;> rfl

/-- `ParseConfig` leaves no handle open when it reports success. -/
theorem ParseConfig_loop_unclosed (fs : FileSystem) (config : List Char) (fuel : Nat) :
    ∀ (unread cmd : List Char) (assets : List asset_entry_t),
      (ParseConfig_loop fs config fuel unread cmd assets).ret = true →
      (ParseConfig_loop fs config fuel unread cmd assets).unclosed = [] := by
  induction fuel with
  | zero =>
    intro unread cmd assets _
    rfl
  | succ n ih =>
    intro unread cmd assets
    rw [ParseConfig_loop]
    split
    · intro _
      rfl
    · simp only []
      split_ifs with h1 h2 h3 h4
      · exact ih _ _ _
      · exact ih _ _ _
      · intro h
        exact absurd h (by simp)
      · intro h
        exact absurd h (by simp)
      · exact ih _ _ _

/-! ## Lemmas on the driver -/

theorem main_bad_args (fs : FileSystem) (cmd0 : List Char) (argv : List (List Char))
    (hn : argv.length ≠ 3) : main fs cmd0 argv = ⟨1, [], none, none⟩ := by
  unfold main
  rw [if_pos hn]

theorem main_parse_failed (fs : FileSystem) (cmd0 : List Char) (argv : List (List Char))
    (hn : argv.length = 3) (hp : (ParseConfig fs cmd0 (argv.getD 1 [])).ret = false) :
    main fs cmd0 argv = ⟨1, [Stage.parse], none, none⟩ := by
  unfold main
  rw [if_neg (not_not.mpr hn)]
  simp only [hp, Bool.not_false, if_true]

theorem main_pack_failed (fs : FileSystem) (cmd0 : List Char) (argv : List (List Char))
    (hn : argv.length = 3) (hp : (ParseConfig fs cmd0 (argv.getD 1 [])).ret = true)
    (hk : (CreatePacker fs (ParseConfig fs cmd0 (argv.getD 1 [])).assets
      (argv.getD 2 [])).ret = false) :
    main fs cmd0 argv = ⟨1, [Stage.parse, Stage.pack],
      (CreatePacker fs (ParseConfig fs cmd0 (argv.getD 1 [])).assets
        (argv.getD 2 [])).pack_file, none⟩ := by
  unfold main
  rw [if_neg (not_not.mpr hn)]
  simp only [hp, hk, Bool.not_false, Bool.not_true, if_true, Bool.false_eq_true, if_false]

theorem main_header_failed (fs : FileSystem) (cmd0 : List Char) (argv : List (List Char))
    (hn : argv.length = 3) (hp : (ParseConfig fs cmd0 (argv.getD 1 [])).ret = true)
    (hk : (CreatePacker fs (ParseConfig fs cmd0 (argv.getD 1 [])).assets
      (argv.getD 2 [])).ret = true)
    (hh : (CreateHeader fs (CreatePacker fs (ParseConfig fs cmd0 (argv.getD 1 [])).assets
      (argv.getD 2 [])).assets (argv.getD 2 [])).ret = false) :
    main fs cmd0 argv = ⟨1, [Stage.parse, Stage.pack, Stage.header],
      (CreatePacker fs (ParseConfig fs cmd0 (argv.getD 1 [])).assets
        (argv.getD 2 [])).pack_file, none⟩ := by
  unfold main
  rw [if_neg (not_not.mpr hn)]
  simp only [hp, hk, hh, Bool.not_false, Bool.not_true, if_true, Bool.false_eq_true,
    if_false]

theorem main_success (fs : FileSystem) (cmd0 : List Char) (argv : List (List Char))
    (hn : argv.length = 3) (hp : (ParseConfig fs cmd0 (argv.getD 1 [])).ret = true)
    (hk : (CreatePacker fs (ParseConfig fs cmd0 (argv.getD 1 [])).assets
      (argv.getD 2 [])).ret = true)
    (hh : (CreateHeader fs (CreatePacker fs (ParseConfig fs cmd0 (argv.getD 1 [])).assets
      (argv.getD 2 [])).assets (argv.getD 2 [])).ret = true) :
    main fs cmd0 argv = ⟨0, [Stage.parse, Stage.pack, Stage.header],
      (CreatePacker fs (ParseConfig fs cmd0 (argv.getD 1 [])).assets
        (argv.getD 2 [])).pack_file,
      (CreateHeader fs (CreatePacker fs (ParseConfig fs cmd0 (argv.getD 1 [])).assets
        (argv.getD 2 [])).assets (argv.getD 2 [])).header_file⟩ := by
  unfold main
  rw [if_neg (not_not.mpr hn)]
  simp only [hp, hk, hh, Bool.not_true, Bool.false_eq_true, if_false]

/-! ## Claims on failures of the pack assembler and on the driver -/

/-- C13: `CreatePacker` returns failure exactly when the pack file cannot be created or
the source of some descriptor cannot be opened.  When the file cannot be created nothing
is written; when descriptor `k` is the first whose source cannot be opened, the pack
file left behind is the 8-byte header followed by the sources `0..k-1`, and the sources
after `k` are not consulted: any file system that answers alike for the pack file and
for the sources `0..k` gives the same result. -/
theorem CreatePacker_failure (fs : FileSystem) (assets : List asset_entry_t)
    (output_name : List Char) :
    ((CreatePacker fs assets output_name).ret = false ↔
      (fs.fopen_w (snprintf_name output_name ".gen.nxap".toList) = false ∨
        ∃ a ∈ assets, fs.fopen_rb a.path = none)) ∧
    (fs.fopen_w (snprintf_name output_name ".gen.nxap".toList) = false →
      (CreatePacker fs assets output_name).pack_file = none) ∧
    (∀ (k : Nat) (a : asset_entry_t),
      fs.fopen_w (snprintf_name output_name ".gen.nxap".toList) = true →
      assets[k]? = some a → fs.fopen_rb a.path = none →
      (∀ b ∈ assets.take k, fs.fopen_rb b.path ≠ none) →
      (CreatePacker fs assets output_name).pack_file =
        some (fwrite_u32 MAGIC_NUMBER ++ fwrite_u32 VERSION ++
          (assets.take k).flatMap (fun b => (fs.fopen_rb b.path).getD [])) ∧
      (fwrite_u32 MAGIC_NUMBER ++ fwrite_u32 VERSION).length = 8 ∧
      (∀ fs1 : FileSystem,
        fs1.fopen_w (snprintf_name output_name ".gen.nxap".toList) = true →
        (∀ b ∈ assets.take (k + 1), fs1.fopen_rb b.path = fs.fopen_rb b.path) →
        (CreatePacker fs1 assets output_name).ret = false ∧
        (CreatePacker fs1 assets output_name).pack_file =
          (CreatePacker fs assets output_name).pack_file ∧
        (CreatePacker fs1 assets output_name).assets =
          (CreatePacker fs assets output_name).assets)) := by
  refine ⟨?_, ?_, ?_⟩
  · by_cases hw : fs.fopen_w (snprintf_name output_name ".gen.nxap".toList) = true
    · rw [CreatePacker_created fs assets output_name hw]
      have h := CreatePacker_loop_ret fs (snprintf_name output_name ".gen.nxap".toList)
        assets 8 (fwrite_u32 MAGIC_NUMBER ++ fwrite_u32 VERSION)
      constructor
      · intro hf
        right
        by_contra hno
        have hall : ∀ a ∈ assets, fs.fopen_rb a.path ≠ none := by
          intro a ha hnone
          exact hno ⟨a, ha, hnone⟩
        rw [h.mpr hall] at hf
        exact Bool.noConfusion hf
      · intro hor
        rcases hor with hf | ⟨a, ha, hnone⟩
        · rw [hw] at hf
          exact Bool.noConfusion hf
        · rw [← Bool.not_eq_true]
          intro ht
          exact (h.mp ht) a ha hnone
    · rw [CreatePacker_not_created fs assets output_name hw]
      simp only [true_iff]
      left
      exact Bool.eq_false_iff.mpr hw
  · intro hw
    rw [CreatePacker_not_created fs assets output_name (by rw [hw]; exact Bool.false_ne_true)]
  · intro k a hw hk hnone hpre
    have hfail := CreatePacker_loop_fail_at fs (snprintf_name output_name ".gen.nxap".toList)
      assets k a 8 (fwrite_u32 MAGIC_NUMBER ++ fwrite_u32 VERSION) hk hnone hpre
    refine ⟨?_, header_length, ?_⟩
    · rw [CreatePacker_created fs assets output_name hw]
      exact hfail.2.1
    · intro fs1 hw1 hagree
      have hcongr := CreatePacker_loop_congr fs fs1
        (snprintf_name output_name ".gen.nxap".toList) assets k a 8
        (fwrite_u32 MAGIC_NUMBER ++ fwrite_u32 VERSION) hk hnone hagree
      rw [CreatePacker_created fs1 assets output_name hw1,
        CreatePacker_created fs assets output_name hw, hcongr]
      exact ⟨hfail.1, rfl, rfl⟩

theorem CreatePacker_failure_witness :
    fs_three_bytes.fopen_w (snprintf_name "out".toList ".gen.nxap".toList) = true ∧
    assets_abc[1]? = some ⟨"B".toList, "b".toList, 0, 4⟩ ∧
    fs_three_bytes.fopen_rb "b".toList = none ∧
    (∀ b ∈ assets_abc.take 1, fs_three_bytes.fopen_rb b.path ≠ none) ∧
    (CreatePacker fs_three_bytes assets_abc "out".toList).ret = false ∧
    (CreatePacker fs_three_bytes assets_abc "out".toList).pack_file =
      some [0x50, 0x41, 0x58, 0x4E, 1, 0, 0, 0, 1, 2, 3] ∧
    (CreatePacker fs_three_bytes_c assets_abc "out".toList).pack_file =
      (CreatePacker fs_three_bytes assets_abc "out".toList).pack_file :=
  have h := CreatePacker_failure fs_three_bytes assets_abc "out".toList
  have hk := h.2.2 1 ⟨"B".toList, "b".toList, 0, 4⟩ (by decide) (by decide) (by decide)
    (by decide)
  ⟨by decide, by decide, by decide, by decide,
    h.1.mpr (Or.inr ⟨⟨"B".toList, "b".toList, 0, 4⟩, by decide, by decide⟩),
    hk.1.trans (by decide),
    (hk.2.2 fs_three_bytes_c (by decide) (by decide)).2.1⟩

/-- C14: `main` returns 0 exactly when it is given two arguments (`argc = 3`) and
`ParseConfig`, `CreatePacker` and `CreateHeader` all succeed, each stage working on what
the previous one produced.  With another argument count it returns 1 and runs no stage;
when a stage fails it returns 1 and no later stage is run. -/
theorem main_status (fs : FileSystem) (cmd0 : List Char) (argv : List (List Char)) :
    ((main fs cmd0 argv).status = 0 ↔
      argv.length = 3 ∧
      (ParseConfig fs cmd0 (argv.getD 1 [])).ret = true ∧
      (CreatePacker fs (ParseConfig fs cmd0 (argv.getD 1 [])).assets
        (argv.getD 2 [])).ret = true ∧
      (CreateHeader fs (CreatePacker fs (ParseConfig fs cmd0 (argv.getD 1 [])).assets
        (argv.getD 2 [])).assets (argv.getD 2 [])).ret = true) ∧
    ((main fs cmd0 argv).status = 0 →
      (main fs cmd0 argv).stages = [Stage.parse, Stage.pack, Stage.header]) ∧
    (argv.length ≠ 3 →
      (main fs cmd0 argv).status = 1 ∧ (main fs cmd0 argv).stages = [] ∧
      (main fs cmd0 argv).pack_file = none ∧ (main fs cmd0 argv).header_file = none) ∧
    (argv.length = 3 → (ParseConfig fs cmd0 (argv.getD 1 [])).ret = false →
      (main fs cmd0 argv).status = 1 ∧ (main fs cmd0 argv).stages = [Stage.parse] ∧
      (main fs cmd0 argv).pack_file = none ∧ (main fs cmd0 argv).header_file = none) ∧
    (argv.length = 3 → (ParseConfig fs cmd0 (argv.getD 1 [])).ret = true →
      (CreatePacker fs (ParseConfig fs cmd0 (argv.getD 1 [])).assets
        (argv.getD 2 [])).ret = false →
      (main fs cmd0 argv).status = 1 ∧
      (main fs cmd0 argv).stages = [Stage.parse, Stage.pack] ∧
      (main fs cmd0 argv).header_file = none) ∧
    (argv.length = 3 → (ParseConfig fs cmd0 (argv.getD 1 [])).ret = true →
      (CreatePacker fs (ParseConfig fs cmd0 (argv.getD 1 [])).assets
        (argv.getD 2 [])).ret = true →
      (CreateHeader fs (CreatePacker fs (ParseConfig fs cmd0 (argv.getD 1 [])).assets
        (argv.getD 2 [])).assets (argv.getD 2 [])).ret = false →
      (main fs cmd0 argv).status = 1 ∧
      (main fs cmd0 argv).stages = [Stage.parse, Stage.pack, Stage.header]) := by
  by_cases hn : argv.length = 3
  · cases hp : (ParseConfig fs cmd0 (argv.getD 1 [])).ret with
    | false =>
      rw [main_parse_failed fs cmd0 argv hn hp]
      simp [hn]
    | true =>
      cases hk : (CreatePacker fs (ParseConfig fs cmd0 (argv.getD 1 [])).assets
          (argv.getD 2 [])).ret with
      | false =>
        rw [main_pack_failed fs cmd0 argv hn hp hk]
        simp [hn]
      | true =>
        cases hh : (CreateHeader fs (CreatePacker fs
            (ParseConfig fs cmd0 (argv.getD 1 [])).assets (argv.getD 2 [])).assets
            (argv.getD 2 [])).ret with
        | false =>
          rw [main_header_failed fs cmd0 argv hn hp hk hh]
          simp [hn]
        | true =>
          rw [main_success fs cmd0 argv hn hp hk hh]
          simp [hn]
  · rw [main_bad_args fs cmd0 argv hn]
    simp [hn]

theorem main_status_witness :
    (main fs_background [] ["packer".toList, "cfg".toList, "out".toList]).status = 0 ∧
    (main fs_background [] ["packer".toList, "cfg".toList, "out".toList]).stages
      = [Stage.parse, Stage.pack, Stage.header] ∧
    (main fs_background [] ["packer".toList, "cfg".toList]).status = 1 ∧
    (main fs_background [] ["packer".toList, "cfg".toList]).stages = [] ∧
    (main fs_background [] ["packer".toList, "none".toList, "out".toList]).stages
      = [Stage.parse] :=
  have h := main_status fs_background [] ["packer".toList, "cfg".toList, "out".toList]
  have h0 := h.1.mpr ⟨by decide, by decide, by decide, by decide⟩
  have h2 := (main_status fs_background [] ["packer".toList, "cfg".toList]).2.2.1
    (by decide)
  have h3 := (main_status fs_background []
    ["packer".toList, "none".toList, "out".toList]).2.2.2.1 (by decide) (by decide)
  ⟨h0, h.2.1 h0, h2.1, h2.2.1, h3.2.1⟩

/-! ## Claims on offsets, open handles and empty configs -/

/-- C15 (amended): after a successful `CreatePacker`, consecutive offsets satisfy
`offset (i+1) = (offset i + size i) mod 2 ^ 64`; when 8 plus the sizes of the
descriptors `0..i` is below `2 ^ 64` (no wrap-around) the offsets do not decrease from
`i` to `i + 1`, and they increase exactly when the size of descriptor `i` is not zero. -/
theorem CreatePacker_offsets_monotone (fs : FileSystem) (assets : List asset_entry_t)
    (output_name : List Char) (i : Nat)
    (hret : (CreatePacker fs assets output_name).ret = true)
    (hi : i + 1 < assets.length) :
    ∃ b c, (CreatePacker fs assets output_name).assets[i]? = some b ∧
      (CreatePacker fs assets output_name).assets[i + 1]? = some c ∧
      c.offset = (b.offset + b.size) % SIZE_T_MOD ∧
      (8 + (sizes (assets.take (i + 1))).sum < SIZE_T_MOD →
        b.offset ≤ c.offset ∧ (b.offset < c.offset ↔ b.size ≠ 0)) := by
  have hi0 : i < assets.length := by omega
  have ha : assets[i]? = some assets[i] := List.getElem?_eq_getElem hi0
  have hb := CreatePacker_assets_get fs assets output_name hret i _ ha
  have hc := CreatePacker_assets_get fs assets output_name hret (i + 1) _
    (List.getElem?_eq_getElem hi)
  have hsum := sizes_take_succ assets i _ ha
  refine ⟨_, _, hb, hc, ?_, ?_⟩
  · simp only
    rw [hsum, Nat.mod_add_mod, Nat.add_assoc]
  · intro hfit
    simp only
    rw [hsum] at hfit ⊢
    rw [Nat.mod_eq_of_lt hfit, Nat.mod_eq_of_lt (by omega)]
    constructor
    · omega
    · constructor
      · intro h
        omega
      · intro h
        omega

theorem CreatePacker_offsets_monotone_witness :
    (CreatePacker fs_empty_sources assets_huge "out".toList).ret = true ∧
    0 + 1 < assets_huge.length ∧
    8 + (sizes (assets_huge.take (0 + 1))).sum < SIZE_T_MOD ∧
    ∃ b c, (CreatePacker fs_empty_sources assets_huge "out".toList).assets[0]? = some b ∧
      (CreatePacker fs_empty_sources assets_huge "out".toList).assets[0 + 1]? = some c ∧
      c.offset = (b.offset + b.size) % SIZE_T_MOD ∧
      (8 + (sizes (assets_huge.take (0 + 1))).sum < SIZE_T_MOD →
        b.offset ≤ c.offset ∧ (b.offset < c.offset ↔ b.size ≠ 0)) :=
  ⟨by decide, by decide, by decide,
    CreatePacker_offsets_monotone fs_empty_sources assets_huge "out".toList 0
      (by decide) (by decide)⟩

/-- C15 as stated fails under `size_t` wrap-around: with the sizes `2 ^ 63 - 1`,
`2 ^ 63 - 1` and 1 the offsets are 8, `2 ^ 63 + 7` and 6, so the third offset is below
the second although the second size is not zero. -/
theorem CreatePacker_offsets_not_monotone :
    (CreatePacker fs_empty_sources assets_huge "out".toList).ret = true ∧
    sizes assets_huge = [9223372036854775807, 9223372036854775807, 1] ∧
    (CreatePacker fs_empty_sources assets_huge "out".toList).assets.map (fun a => a.offset)
      = [8, 9223372036854775815, 6] ∧
    ¬ (9223372036854775815 ≤ 6) := by
  decide

/-- C20 (evaluation at the failing input): on a config whose only line is `PACKER b`,
`ParseConfig` returns failure through the `Invalid packer config` exit and the handle of
the config file is still open at that point. -/
theorem ParseConfig_leaves_handle_open :
    ParseConfig (fs_config "PACKER b\n".toList) [] "cfg".toList =
      ⟨false, [], ["cfg".toList]⟩ ∧
    (ParseConfig (fs_config "PACKER b\n".toList) [] "cfg".toList).unclosed ≠ [] := by
  decide

/-- C12: a config that yields no descriptor makes `ParseConfig` fail, and `main` then
returns 1 having run the parser only, with no output file; `ParseConfig` reports
success only with at least one descriptor.  In particular a config made only of blank
lines, comments and lines with a foreign keyword yields no descriptor. -/
theorem ParseConfig_no_descriptor (fs : FileSystem) (cmd0 prog config output_name : List Char) :
    ((ParseConfig fs cmd0 config).assets.length = 0 →
      (ParseConfig fs cmd0 config).ret = false ∧
      main fs cmd0 [prog, config, output_name] = ⟨1, [Stage.parse], none, none⟩) ∧
    ((ParseConfig fs cmd0 config).ret = true → 1 ≤ (ParseConfig fs cmd0 config).assets.length) ∧
    (∀ (ls : List ConfigLine) (final_newline : Bool),
      (∀ l ∈ ls, l.wf = true ∧ l.is_directive = false) →
      fs.fopen_r config = some (render_config ls final_newline) →
      ParseConfig fs cmd0 config = ⟨false, [], []⟩) := by
  have hb := (ParseConfig_bounds fs cmd0 config).2
  refine ⟨?_, hb, ?_⟩
  · intro h0
    have hf : (ParseConfig fs cmd0 config).ret = false := by
      rw [← Bool.not_eq_true]
      intro ht
      have := hb ht
      omega
    exact ⟨hf, main_parse_failed fs cmd0 [prog, config, output_name] rfl hf⟩
  · intro ls final_newline hlines hopen
    have hcount : directive_count ls = 0 := by
      unfold directive_count
      rw [List.length_eq_zero, List.filter_eq_nil_iff]
      intro l hl
      rw [(hlines l hl).2]
      exact Bool.false_ne_true
    have hlen := declared_length fs ls
    rw [hcount] at hlen
    have hnil : declared fs ls = [] := List.length_eq_zero.mp hlen
    rw [ParseConfig_lines fs cmd0 config ls final_newline (fun l hl => (hlines l hl).1)
      (by rw [hlen]; exact Nat.zero_le _) hopen, hnil]
    rfl

theorem ParseConfig_no_descriptor_witness :
    (∀ l ∈ [ConfigLine.skipped "# nothing here".toList, ConfigLine.skipped []],
      l.wf = true ∧ l.is_directive = false) ∧
    render_config [ConfigLine.skipped "# nothing here".toList, ConfigLine.skipped []] true
      = "# nothing here\n\n".toList ∧
    ParseConfig (fs_config "# nothing here\n\n".toList) [] "cfg".toList = ⟨false, [], []⟩ ∧
    main (fs_config "# nothing here\n\n".toList) [] ["packer".toList, "cfg".toList,
      "out".toList] = ⟨1, [Stage.parse], none, none⟩ :=
  have h := ParseConfig_no_descriptor (fs_config "# nothing here\n\n".toList) []
    "packer".toList "cfg".toList "out".toList
  ⟨by decide, by decide,
    h.2.2 [ConfigLine.skipped "# nothing here".toList, ConfigLine.skipped []] true
      (by decide) (by decide),
    (h.1 (by decide)).2⟩

/-! ## Lemmas on the stored identifiers -/

theorem dropWhile_head_not {p : Char → Bool} (l : List Char) :
    ∀ (x : Char) (xs : List Char), l.dropWhile p = x :: xs → p x = false := by
  induction l with
  | nil =>
    intro x xs h
    simp at h
  | cons y ys ih =>
    intro x xs h
    rw [List.dropWhile_cons] at h
    split_ifs at h with hy
    · exact ih x xs h
    · simp only [List.cons.injEq] at h
      rw [← h.1]
      simpa using hy

/-- A token stored by `%s` is not empty and holds no white space. -/
theorem scan_s_token_props (input : List Char) (r : List Char × List Char)
    (h : scan_s input = some r) : r.1 ≠ [] ∧ ∀ c ∈ r.1, isspace c = false := by
  unfold scan_s at h
  split_ifs at h with hd
  simp only [Option.some.injEq] at h
  rw [← h]
  simp only
  constructor
  · cases hdw : List.dropWhile isspace input with
    | nil => exact absurd hdw hd
    | cons x xs =>
      have hx : isspace x = false := dropWhile_head_not input x xs hdw
      simp [List.takeWhile_cons, hx]
  · intro c hc
    have := List.mem_takeWhile_imp hc
    simpa using this

theorem sscanf_PACKER_name (line : List Char) (h : (sscanf_PACKER line).ret = 2) :
    (sscanf_PACKER line).name ≠ [] ∧ ∀ c ∈ (sscanf_PACKER line).name, isspace c = false := by
  unfold sscanf_PACKER at h ⊢
  cases h0 : scan_literal "PACKER".toList line with
  | error e =>
    rw [h0] at h
    simp only at h
    have hle : ∀ (f i : List Char) (e : Int), scan_literal f i = .error e → e ≠ 2 := by
      intro f
      induction f with
      | nil =>
        intro i e he
        simp [scan_literal] at he
      | cons x xs ih =>
        intro i e he
        cases i with
        | nil =>
          simp only [scan_literal, Except.error.injEq] at he
          omega
        | cons y ys =>
          simp only [scan_literal] at he
          split_ifs at he
          · exact ih ys e he
          · simp only [Except.error.injEq] at he
            omega
    exact absurd h (hle _ _ e h0)
  | ok rest =>
    simp only
    cases h1 : scan_s rest with
    | none =>
      rw [h0] at h
      simp [h1] at h
    | some r1 =>
      simp only
      cases h2 : scan_s r1.2 with
      | none =>
        rw [h0] at h
        simp [h1, h2] at h
      | some r2 =>
        simp only
        exact scan_s_token_props r1.2 r2 h2

/-- Every descriptor stored by the parser loop has a non-empty name of at most 127
characters without white space. -/
theorem ParseConfig_loop_names (fs : FileSystem) (config : List Char) (fuel : Nat) :
    ∀ (unread cmd : List Char) (assets : List asset_entry_t),
      (∀ a ∈ assets, a.name ≠ [] ∧ a.name.length ≤ 127 ∧ ∀ c ∈ a.name, isspace c = false) →
      ∀ a ∈ (ParseConfig_loop fs config fuel unread cmd assets).assets,
        a.name ≠ [] ∧ a.name.length ≤ 127 ∧ ∀ c ∈ a.name, isspace c = false := by
  induction fuel with
  | zero =>
    intro unread cmd assets h
    exact h
  | succ n ih =>
    intro unread cmd assets h
    rw [ParseConfig_loop]
    split
    · exact h
    · simp only []
      split_ifs with h1 h2 h3 h4
      · exact ih _ _ _ h
      · apply ih
        intro a ha
        rcases List.mem_append.mp ha with ha | ha
        · exact h a ha
        · rw [List.mem_singleton.mp ha]
          obtain ⟨hne, hsp⟩ := sscanf_PACKER_name _ h3
          have h127 : MAX_NAME - 1 = 127 := by decide
          simp only [h127]
          refine ⟨?_, by simp [List.length_take], ?_⟩
          · intro hnil
            rw [List.take_eq_nil_iff] at hnil
            rcases hnil with hz | hz
            · omega
            · exact hne hz
          · intro c hc
            exact hsp c (List.mem_of_mem_take hc)
      · exact h
      · exact h
      · exact ih _ _ _ h

theorem declared_names (fs : FileSystem) (ls : List ConfigLine) :
    (declared fs ls).map (fun a => a.name) = identifiers ls := by
  induction ls with
  | nil => rfl
  | cons l ls ih =>
    rw [declared_cons, List.map_append, ih]
    cases l <;> simp [ConfigLine.descriptor, identifiers]

/-! ## Claims on the stored identifiers and on long tokens -/

/-- C16 (amended): the name of every descriptor produced by an accepted config is the
identifier token as it is written in the config; it is not passed through the name
sanitizer.  It is not empty, has at most 127 characters and holds no white space, but it
may hold any other character.  For a config made of well-formed lines the names are
exactly the identifier tokens of the directive lines, in file order. -/
theorem ParseConfig_names_stored (fs : FileSystem) (cmd0 config : List Char)
    (hparse : (ParseConfig fs cmd0 config).ret = true) :
    (∀ a ∈ (ParseConfig fs cmd0 config).assets,
      a.name ≠ [] ∧ a.name.length ≤ 127 ∧ ∀ c ∈ a.name, isspace c = false) ∧
    (∀ (ls : List ConfigLine) (final_newline : Bool), (∀ l ∈ ls, l.wf = true) →
      directive_count ls ≤ 512 →
      fs.fopen_r config = some (render_config ls final_newline) →
      (ParseConfig fs cmd0 config).assets.map (fun a => a.name) = identifiers ls) := by
  have _ := hparse
  constructor
  · unfold ParseConfig
    split
    · intro a ha
      simp at ha
    · exact ParseConfig_loop_names fs config _ _ _ _ (by simp)
  · intro ls final_newline hwf hmax hopen
    have hlen := declared_length fs ls
    rw [ParseConfig_lines fs cmd0 config ls final_newline hwf (by rw [hlen]; exact hmax)
      hopen]
    exact declared_names fs ls

theorem ParseConfig_names_stored_witness :
    (ParseConfig (fs_config "PACKER a bg-1.x\n".toList) [] "cfg".toList).ret = true ∧
    (ParseConfig (fs_config "PACKER a bg-1.x\n".toList) [] "cfg".toList).assets.map
      (fun a => a.name) = ["bg-1.x".toList] ∧
    (∀ a ∈ (ParseConfig (fs_config "PACKER a bg-1.x\n".toList) [] "cfg".toList).assets,
      a.name ≠ [] ∧ a.name.length ≤ 127 ∧ ∀ c ∈ a.name, isspace c = false) :=
  ⟨by decide, by decide,
    (ParseConfig_names_stored (fs_config "PACKER a bg-1.x\n".toList) [] "cfg".toList
      (by decide)).1⟩

/-- C16 as stated fails: the directive `PACKER a bg-1.x` is accepted and its descriptor
keeps the name `bg-1.x`, with lower-case letters, `-` and `.`, whereas the sanitizer
would give `BG_1_X`. -/
theorem ParseConfig_name_not_sanitized :
    ParseConfig (fs_config "PACKER a bg-1.x\n".toList) [] "cfg".toList =
      ⟨true, [⟨"bg-1.x".toList, "a".toList, 0, 5⟩], []⟩ ∧
    "bg-1.x".toList.all is_code_char = false ∧
    SanitizeName "bg-1.x".toList = "BG_1_X".toList := by
  decide

/-- C17 (evaluation at the failing inputs): a directive line with a path of 256
characters makes `ParseConfig` fail, because `fgets` hands over only its first 127
characters, which hold a single token after the keyword; a directive line with an
identifier of 130 characters is recorded with the 118 characters of the identifier that
fit the same 127 characters, not with its first 127. -/
theorem ParseConfig_long_tokens :
    ParseConfig (fs_config config_long_path) [] "cfg".toList =
      ⟨false, [], ["cfg".toList]⟩ ∧
    ParseConfig (fs_config config_long_identifier) [] "cfg".toList =
      ⟨true, [⟨List.replicate 118 'X', "a".toList, 0, 5⟩], []⟩ ∧
    (List.replicate 130 'X').take 127 ≠ List.replicate 118 'X' := by
  decide

/-! ## The parser loop on arbitrary text -/

theorem ends_line_cases (seg : List Char) (h : ends_line seg = true) :
    seg = [] ∨ ∃ body, seg = body ++ ['\n'] := by
  simp only [ends_line, Bool.or_eq_true, List.isEmpty_iff, beq_iff_eq] at h
  rcases h with h | h
  · exact Or.inl h
  · right
    rcases List.eq_nil_or_concat seg with hnil | ⟨body, c, hcat⟩
    · rw [hnil] at h
      simp at h
    · rw [List.concat_eq_append] at hcat
      rw [hcat, List.getLast?_append] at h
      have hc : c = '\n' := by simpa [Option.or] using h
      exact ⟨body, by rw [hcat, hc]⟩

/-- One call of `fgets` inside text that stops at a line boundary leaves text that
stops at the same boundary. -/
theorem fgets_read_body (body : List Char) :
    ∀ (k : Nat) (tail : List Char), 0 < k →
      ∃ buf seg1, fgets_read k (body ++ '\n' :: tail) = (buf, seg1 ++ tail) ∧
        (seg1 = [] ∨ ∃ body1, seg1 = body1 ++ ['\n'] ∧ body1.length < body.length) := by
  induction body with
  | nil =>
    intro k tail hk
    cases k with
    | zero => omega
    | succ k => exact ⟨['\n'], [], by simp [fgets_read], Or.inl rfl⟩
  | cons c cs ih =>
    intro k tail hk
    cases k with
    | zero => omega
    | succ k =>
      by_cases hc : c = '\n'
      · refine ⟨[c], cs ++ ['\n'], ?_, Or.inr ⟨cs, rfl, by simp⟩⟩
        simp [fgets_read, hc]
      · cases k with
        | zero =>
          refine ⟨[c], cs ++ ['\n'], ?_, Or.inr ⟨cs, rfl, by simp⟩⟩
          simp [fgets_read, hc]
        | succ k =>
          obtain ⟨buf, seg1, h1, h2⟩ := ih (k + 1) tail (by omega)
          refine ⟨c :: buf, seg1, ?_, ?_⟩
          · have h1a : fgets_read (k + 1) (cs.append ('\n' :: tail)) = (buf, seg1 ++ tail) := h1
            simp only [List.cons_append, fgets_read, hc, if_false, h1a, List.cons]
          · rcases h2 with h2 | ⟨body1, h3, h4⟩
            · exact Or.inl h2
            · exact Or.inr ⟨body1, h3, by simp only [List.length_cons]; omega⟩

/-- One iteration of the parser loop either ends the parse with a failure or goes on
with what `fgets` left unread, without dropping a descriptor. -/
theorem ParseConfig_loop_step (fs : FileSystem) (config : List Char)
    (unread buf rest cmd : List Char) (assets : List asset_entry_t)
    (hf : fgets MAX_CHARSET unread = some (buf, rest)) :
    (ParseConfig_loop fs config unread.length unread cmd assets).ret = false ∨
    ∃ cmd1 assets1,
      ParseConfig_loop fs config unread.length unread cmd assets =
        ParseConfig_loop fs config rest.length rest cmd1 assets1 ∧
      assets.length ≤ assets1.length := by
  by_cases hskip : (c_str buf).headD (Char.ofNat 0) = Char.ofNat 0 ∨
      (c_str buf).headD (Char.ofNat 0) = '#' ∨ (c_str buf).headD (Char.ofNat 0) = '\r' ∨
      (c_str buf).headD (Char.ofNat 0) = '\n'
  · right
    exact ⟨cmd, assets,
      ParseConfig_loop_skip fs config _ unread buf rest cmd assets (le_refl _) hf hskip,
      le_refl _⟩
  · by_cases hcmd : (sscanf_s (c_str buf) cmd).take 6 = "PACKER".toList
    · by_cases hscan : (sscanf_PACKER (c_str buf)).ret = 2
      · by_cases hroom : assets.length < MAX_ASSETS
        · right
          exact ⟨_, _,
            ParseConfig_loop_directive fs config _ unread buf rest cmd assets (le_refl _) hf
              hskip hcmd hscan hroom,
            by simp⟩
        · left
          rw [ParseConfig_loop_too_many fs config _ unread buf rest cmd assets (le_refl _) hf
            hskip hcmd hscan hroom]
      · left
        rw [ParseConfig_loop_invalid fs config _ unread buf rest cmd assets (le_refl _) hf
          hskip hcmd hscan]
    · right
      exact ⟨_, assets,
        ParseConfig_loop_foreign fs config _ unread buf rest cmd assets (le_refl _) hf hskip
          hcmd,
        le_refl _⟩

/-- Arbitrary text up to a line boundary either makes the parse fail or takes the parser
loop to the text after the boundary, without dropping a descriptor. -/
theorem ParseConfig_loop_body (fs : FileSystem) (config : List Char) (n : Nat) :
    ∀ (body tail cmd : List Char) (assets : List asset_entry_t), body.length ≤ n →
      (ParseConfig_loop fs config (body ++ '\n' :: tail).length (body ++ '\n' :: tail)
        cmd assets).ret = false ∨
      ∃ cmd1 assets1,
        ParseConfig_loop fs config (body ++ '\n' :: tail).length (body ++ '\n' :: tail)
          cmd assets = ParseConfig_loop fs config tail.length tail cmd1 assets1 ∧
        assets.length ≤ assets1.length := by
  induction n with
  | zero =>
    intro body tail cmd assets hlen
    have hnil : body = [] := List.length_eq_zero.mp (Nat.le_zero.mp hlen)
    subst hnil
    obtain ⟨buf, seg1, h1, h2⟩ := fgets_read_body [] 127 tail (by omega)
    rcases h2 with h2 | ⟨body1, _, h4⟩
    · subst h2
      have hf : fgets MAX_CHARSET ([] ++ '\n' :: tail) = some (buf, [] ++ tail) := by
        unfold fgets
        rw [if_neg (by simp)]
        exact congrArg some h1
      exact ParseConfig_loop_step fs config _ buf _ cmd assets hf
    · simp at h4
  | succ n ih =>
    intro body tail cmd assets hlen
    obtain ⟨buf, seg1, h1, h2⟩ := fgets_read_body body 127 tail (by omega)
    have hf : fgets MAX_CHARSET (body ++ '\n' :: tail) = some (buf, seg1 ++ tail) := by
      unfold fgets
      rw [if_neg (by simp)]
      exact congrArg some h1
    rcases ParseConfig_loop_step fs config _ buf _ cmd assets hf with hfail | ⟨cmd1, assets1, hstep, hle⟩
    · exact Or.inl hfail
    · rcases h2 with h2 | ⟨body1, h3, h4⟩
      · subst h2
        exact Or.inr ⟨cmd1, assets1, hstep, hle⟩
      · subst h3
        rw [hstep]
        simp only [List.append_assoc, List.singleton_append]
        rcases ih body1 tail cmd1 assets1 (by omega) with hfail | ⟨cmd2, assets2, hstep2, hle2⟩
        · exact Or.inl hfail
        · exact Or.inr ⟨cmd2, assets2, hstep2, by omega⟩

theorem ParseConfig_loop_segment (fs : FileSystem) (config : List Char)
    (seg tail cmd : List Char) (assets : List asset_entry_t) (hseg : ends_line seg = true) :
    (ParseConfig_loop fs config (seg ++ tail).length (seg ++ tail) cmd assets).ret = false ∨
    ∃ cmd1 assets1,
      ParseConfig_loop fs config (seg ++ tail).length (seg ++ tail) cmd assets =
        ParseConfig_loop fs config tail.length tail cmd1 assets1 ∧
      assets.length ≤ assets1.length := by
  rcases ends_line_cases seg hseg with hnil | ⟨body, hbody⟩
  · subst hnil
    exact Or.inr ⟨cmd, assets, rfl, le_refl _⟩
  · subst hbody
    simp only [List.append_assoc, List.singleton_append]
    exact ParseConfig_loop_body fs config body.length body tail cmd assets (le_refl _)

theorem directive_descriptor_length (fs : FileSystem) (d : ConfigLine)
    (hd : d.is_directive = true) : (d.descriptor fs).length = 1 := by
  cases d with
  | skipped t => simp [ConfigLine.is_directive] at hd
  | directive sep1 path sep2 ident trail => rfl
  | foreign t => simp [ConfigLine.is_directive] at hd

/-- A well-formed directive line met when the array is full ends the parse with the
`Too many assets` failure. -/
theorem ParseConfig_loop_directive_full (fs : FileSystem) (config : List Char)
    (d : ConfigLine) (hwf : d.wf = true) (hd : d.is_directive = true)
    (term tail : List Char) (hterm : term = ['\n'] ∨ (term = [] ∧ tail = []))
    (cmd : List Char) (assets : List asset_entry_t) (hfull : ¬ assets.length < MAX_ASSETS) :
    ParseConfig_loop fs config (d.text ++ term ++ tail).length (d.text ++ term ++ tail)
      cmd assets = ⟨false, assets, [config]⟩ := by
  cases d with
  | skipped t => simp [ConfigLine.is_directive] at hd
  | foreign t => simp [ConfigLine.is_directive] at hd
  | directive sep1 path sep2 ident trail =>
    obtain ⟨hnl, hlen⟩ := wf_text _ hwf
    have hne : (ConfigLine.directive sep1 path sep2 ident trail).text ≠ [] := by
      simp [ConfigLine.text]
    have hterm2 : term = ['\n'] ∨ (term = [] ∧ tail = [] ∧
        (ConfigLine.directive sep1 path sep2 ident trail).text ≠ []) := by
      rcases hterm with h | h
      · exact Or.inl h
      · exact Or.inr ⟨h.1, h.2, hne⟩
    have hterm1 : term = [] ∨ term = ['\n'] := by
      rcases hterm with h | h
      · exact Or.inr h
      · exact Or.inl h.1
    have hf := fgets_line _ term tail hnl hlen hterm2
    have hnn := directive_no_nul sep1 path sep2 ident trail term hwf hterm1
    have hc := c_str_of_no_nul _ hnn
    obtain ⟨hs, hp⟩ := directive_scan sep1 path sep2 ident trail term hwf hterm1 cmd
    simp only [ConfigLine.text] at hf ⊢
    apply ParseConfig_loop_too_many fs config _ _ _ _ cmd assets (le_refl _) hf
    · rw [c_str_headD]
      simp only [String.toList, List.cons_append, List.headD_cons]
      decide
    · rw [hc, hs]
      decide
    · rw [hc, hp]
    · exact hfull

theorem interleave_cons (b : List Char × ConfigLine) (bs : List (List Char × ConfigLine)) :
    interleave (b :: bs) = b.1 ++ (b.2.text ++ ['\n'] ++ interleave bs) := by
  simp [interleave]

/-- Directive lines met anywhere in a config each add a descriptor, unless the parse
fails before: after `n` well-formed directive lines, each starting at a line boundary,
the parse has failed or holds at least `n` more descriptors. -/
theorem ParseConfig_loop_blocks (fs : FileSystem) (config : List Char)
    (blocks : List (List Char × ConfigLine))
    (hblocks : ∀ b ∈ blocks, ends_line b.1 = true ∧ b.2.wf = true ∧ b.2.is_directive = true)
    (tail : List Char) :
    ∀ (cmd : List Char) (assets : List asset_entry_t),
      (ParseConfig_loop fs config (interleave blocks ++ tail).length
        (interleave blocks ++ tail) cmd assets).ret = false ∨
      ∃ cmd1 assets1,
        ParseConfig_loop fs config (interleave blocks ++ tail).length
          (interleave blocks ++ tail) cmd assets =
          ParseConfig_loop fs config tail.length tail cmd1 assets1 ∧
        assets.length + blocks.length ≤ assets1.length := by
  induction blocks with
  | nil =>
    intro cmd assets
    exact Or.inr ⟨cmd, assets, by simp [interleave], by simp⟩
  | cons b bs ih =>
    intro cmd assets
    obtain ⟨hseg, hwf, hd⟩ := hblocks b (List.mem_cons_self _ _)
    have hrest : ∀ x ∈ bs, ends_line x.1 = true ∧ x.2.wf = true ∧ x.2.is_directive = true :=
      fun x hx => hblocks x (List.mem_cons_of_mem _ hx)
    rw [interleave_cons, List.append_assoc]
    rcases ParseConfig_loop_segment fs config b.1
        (b.2.text ++ ['\n'] ++ interleave bs ++ tail) cmd assets hseg with
      hfail | ⟨cmd1, assets1, hstep1, hle1⟩
    · exact Or.inl hfail
    · rw [hstep1]
      by_cases hroom : assets1.length < MAX_ASSETS
      · obtain ⟨cmd2, hstep2⟩ := ParseConfig_loop_line fs config b.2 hwf ['\n']
          (interleave bs ++ tail) (Or.inl rfl) cmd1 assets1
          (by rw [directive_descriptor_length fs b.2 hd]; omega)
        have hassoc : b.2.text ++ ['\n'] ++ interleave bs ++ tail =
            b.2.text ++ ['\n'] ++ (interleave bs ++ tail) := by
          simp only [List.append_assoc]
        rw [hassoc, hstep2]
        rcases ih hrest cmd2 (assets1 ++ b.2.descriptor fs) with
          hfail | ⟨cmd3, assets3, hstep3, hle3⟩
        · exact Or.inl hfail
        · refine Or.inr ⟨cmd3, assets3, hstep3, ?_⟩
          rw [List.length_append, directive_descriptor_length fs b.2 hd] at hle3
          simp only [List.length_cons]
          omega
      · left
        have hassoc : b.2.text ++ ['\n'] ++ interleave bs ++ tail =
            b.2.text ++ ['\n'] ++ (interleave bs ++ tail) := by
          simp only [List.append_assoc]
        rw [hassoc, ParseConfig_loop_directive_full fs config b.2 hwf hd ['\n']
          (interleave bs ++ tail) (Or.inl rfl) cmd1 assets1 hroom]

/-- A config with more than `MAX_ASSETS` well-formed directive lines is rejected, whatever
else it holds. -/
theorem ParseConfig_too_many (fs : FileSystem) (cmd0 config : List Char)
    (blocks : List (List Char × ConfigLine)) (seg : List Char) (d : ConfigLine)
    (term rest : List Char)
    (hblocks : ∀ b ∈ blocks, ends_line b.1 = true ∧ b.2.wf = true ∧ b.2.is_directive = true)
    (hcount : MAX_ASSETS ≤ blocks.length) (hseg : ends_line seg = true)
    (hwf : d.wf = true) (hd : d.is_directive = true)
    (hterm : term = ['\n'] ∨ (term = [] ∧ rest = []))
    (hopen : fs.fopen_r config =
      some (interleave blocks ++ (seg ++ (d.text ++ term ++ rest)))) :
    (ParseConfig fs cmd0 config).ret = false := by
  unfold ParseConfig
  rw [hopen]
  simp only
  rcases ParseConfig_loop_blocks fs config blocks hblocks (seg ++ (d.text ++ term ++ rest))
      cmd0 [] with hfail | ⟨cmd1, assets1, hstep1, hle1⟩
  · exact hfail
  · rw [hstep1]
    rcases ParseConfig_loop_segment fs config seg (d.text ++ term ++ rest) cmd1 assets1 hseg
      with hfail | ⟨cmd2, assets2, hstep2, hle2⟩
    · exact hfail
    · rw [hstep2, ParseConfig_loop_directive_full fs config d hwf hd term rest hterm cmd2
        assets2 (by simp only [List.length_nil] at hle1; omega)]

/-! ## Claim on the capacity of the descriptor array -/

/-- C11: a config that holds more than 512 (`MAX_ASSETS`) well-formed directive lines,
whatever else it holds, makes `ParseConfig` fail, and `main` then returns 1 having run
the parser only, with no output file; a config of well-formed lines with exactly 512
directives is accepted with count 512; on every successful parse the count is between 1
and 512. -/
theorem ParseConfig_capacity (fs : FileSystem) (cmd0 prog config output_name : List Char) :
    (∀ (blocks : List (List Char × ConfigLine)) (seg : List Char) (d : ConfigLine)
      (term rest : List Char),
      (∀ b ∈ blocks, ends_line b.1 = true ∧ b.2.wf = true ∧ b.2.is_directive = true) →
      512 ≤ blocks.length → ends_line seg = true → d.wf = true → d.is_directive = true →
      (term = ['\n'] ∨ (term = [] ∧ rest = [])) →
      fs.fopen_r config = some (interleave blocks ++ (seg ++ (d.text ++ term ++ rest))) →
      (ParseConfig fs cmd0 config).ret = false ∧
      main fs cmd0 [prog, config, output_name] = ⟨1, [Stage.parse], none, none⟩) ∧
    (∀ (ls : List ConfigLine) (final_newline : Bool), (∀ l ∈ ls, l.wf = true) →
      directive_count ls = 512 →
      fs.fopen_r config = some (render_config ls final_newline) →
      (ParseConfig fs cmd0 config).ret = true ∧
      (ParseConfig fs cmd0 config).assets.length = 512) ∧
    ((ParseConfig fs cmd0 config).ret = true →
      1 ≤ (ParseConfig fs cmd0 config).assets.length ∧
      (ParseConfig fs cmd0 config).assets.length ≤ 512) := by
  refine ⟨?_, ?_, ?_⟩
  · intro blocks seg d term rest hblocks hcount hseg hwf hd hterm hopen
    have hf := ParseConfig_too_many fs cmd0 config blocks seg d term rest hblocks hcount hseg
      hwf hd hterm hopen
    exact ⟨hf, main_parse_failed fs cmd0 [prog, config, output_name] rfl hf⟩
  · intro ls final_newline hwf hcount hopen
    have hlen := declared_length fs ls
    rw [ParseConfig_lines fs cmd0 config ls final_newline hwf
      (by rw [hlen, hcount]; decide) hopen]
    simp only [decide_eq_true_eq]
    rw [hlen, hcount]
    exact ⟨by decide, rfl⟩
  · intro hret
    have hb := ParseConfig_bounds fs cmd0 config
    exact ⟨hb.2 hret, hb.1⟩

theorem ParseConfig_capacity_witness :
    (ParseConfig (fs_config config_513) [] "cfg".toList).ret = false ∧
    main (fs_config config_513) [] ["packer".toList, "cfg".toList, "out".toList]
      = ⟨1, [Stage.parse], none, none⟩ ∧
    (ParseConfig (fs_config config_512) [] "cfg".toList).ret = true ∧
    (ParseConfig (fs_config config_512) [] "cfg".toList).assets.length = 512 :=
  have hwf : directive_a.wf = true ∧ directive_a.is_directive = true := by decide
  have h513 := (ParseConfig_capacity (fs_config config_513) [] "packer".toList "cfg".toList
    "out".toList).1 (List.replicate 512 ([], directive_a)) [] directive_a ['\n'] []
    (fun b hb => by rw [List.eq_of_mem_replicate hb]; decide)
    (by rw [List.length_replicate]) (by decide) hwf.1 hwf.2 (Or.inl rfl) rfl
  have h512 := (ParseConfig_capacity (fs_config config_512) [] "packer".toList "cfg".toList
    "out".toList).2.1 (List.replicate 512 directive_a) true
    (fun l hl => by rw [List.eq_of_mem_replicate hl]; exact hwf.1)
    (by simp [directive_count, List.filter_replicate, directive_a, ConfigLine.is_directive])
    rfl
  ⟨h513.1, h513.2, h512.1, h512.2⟩

/-! ## Agreement of the name sanitizer with its reference definition -/

/-- The scanning loop is the reference treatment of the characters, cut at 127. -/
theorem SanitizeName_loop_eq (cs : List Char) :
    ∀ out : List Char, out.length ≤ MAX_NAME - 1 →
      SanitizeName_loop cs out = (out ++ cs.filterMap sanitize_char).take (MAX_NAME - 1) := by
  induction cs with
  | nil =>
    intro out h
    simp [SanitizeName_loop, List.take_of_length_le h]
  | cons c cs ih =>
    intro out h
    simp only [SanitizeName_loop]
    split_ifs with h1 h2 h3
    · rw [ih _ (by simp only [List.length_append, List.length_singleton]; omega)]
      simp [List.filterMap_cons, sanitize_char, h2]
    · rw [ih _ (by simp only [List.length_append, List.length_singleton]; omega)]
      simp [List.filterMap_cons, sanitize_char, h2, h3]
    · rw [ih _ h]
      simp [List.filterMap_cons, sanitize_char, h2, h3]
    · have hlen : out.length = MAX_NAME - 1 := by omega
      rw [← hlen, List.take_left]

theorem strrchr_none (s : List Char) (c : Char) (h : strrchr s c = none) : c ∉ s := by
  induction s with
  | nil => simp
  | cons x xs ih =>
    simp only [strrchr] at h
    cases hx : strrchr xs c with
    | some r =>
      rw [hx] at h
      simp at h
    | none =>
      rw [hx] at h
      simp only at h
      split_ifs at h with hxc
      intro hmem
      rcases List.mem_cons.mp hmem with hm | hm
      · exact hxc hm.symm
      · exact ih hx hm

theorem strrchr_some (s : List Char) (c : Char) :
    ∀ r : List Char, strrchr s c = some r →
      ∃ pre t, s = pre ++ c :: t ∧ r = c :: t ∧ c ∉ t := by
  induction s with
  | nil =>
    intro r h
    simp [strrchr] at h
  | cons x xs ih =>
    intro r h
    simp only [strrchr] at h
    cases hx : strrchr xs c with
    | some r1 =>
      rw [hx] at h
      simp only [Option.some.injEq] at h
      obtain ⟨pre, t, h1, h2, h3⟩ := ih r1 hx
      exact ⟨x :: pre, t, by rw [h1]; rfl, by rw [← h, h2], h3⟩
    | none =>
      rw [hx] at h
      simp only at h
      split_ifs at h with hxc
      simp only [Option.some.injEq] at h
      exact ⟨[], xs, by rw [hxc]; rfl, by rw [← h, hxc], strrchr_none xs c hx⟩

theorem suffix_after_separator (pre t : List Char) (x : Char) (hx : is_separator x = true)
    (ht : ∀ c ∈ t, is_separator c = false) :
    ((pre ++ x :: t).reverse.takeWhile (fun c => !is_separator c)).reverse = t := by
  have hrev : (pre ++ x :: t).reverse = t.reverse ++ x :: pre.reverse := by simp
  rw [hrev, List.takeWhile_append_of_pos (by
    intro c hc
    simp [ht c (List.mem_reverse.mp hc)])]
  simp [List.takeWhile_cons, hx]

theorem suffix_no_separator (s : List Char) (hs : ∀ c ∈ s, is_separator c = false) :
    (s.reverse.takeWhile (fun c => !is_separator c)).reverse = s := by
  rw [List.takeWhile_eq_self_iff.mpr (by
    intro c hc
    simp [hs c (List.mem_reverse.mp hc)])]
  simp

theorem not_separator (c : Char) (h1 : c ≠ '/') (h2 : c ≠ '\\') : is_separator c = false := by
  simp [is_separator, h1, h2]

/-- `SanitizeName` agrees with the reference definition on every string in which no
backslash follows the last forward slash. -/
theorem SanitizeName_eq_reference (s : List Char)
    (h : ∀ r, strrchr s '/' = some r → '\\' ∉ r) :
    SanitizeName s = SanitizeName_reference s := by
  unfold SanitizeName SanitizeName_reference
  simp only
  cases h1 : strrchr s '/' with
  | some r =>
    simp only
    obtain ⟨pre, t, hs, hr, hnot⟩ := strrchr_some s '/' r h1
    have hbs : '\\' ∉ t := by
      intro hm
      exact h r h1 (by rw [hr]; exact List.mem_cons_of_mem _ hm)
    have ht : ∀ c ∈ t, is_separator c = false := by
      intro c hc
      exact not_separator c (fun e => hnot (e ▸ hc)) (fun e => hbs (e ▸ hc))
    rw [hs, suffix_after_separator pre t '/' (by decide) ht, hr, List.drop_one, List.tail_cons,
      SanitizeName_loop_eq t [] (by simp), List.nil_append]
  | none =>
    simp only
    have hno := strrchr_none s '/' h1
    cases h2 : strrchr s '\\' with
    | some r =>
      simp only
      obtain ⟨pre, t, hs, hr, hnot⟩ := strrchr_some s '\\' r h2
      have ht : ∀ c ∈ t, is_separator c = false := by
        intro c hc
        refine not_separator c (fun e => hno ?_) (fun e => hnot (e ▸ hc))
        rw [hs, ← e]
        exact List.mem_append_right _ (List.mem_cons_of_mem _ hc)
      rw [hr, List.drop_one, List.tail_cons, SanitizeName_loop_eq t [] (by simp),
        List.nil_append]
      conv_rhs => rw [hs, suffix_after_separator pre t '\\' (by decide) ht]
    | none =>
      simp only
      have hno2 := strrchr_none s '\\' h2
      have hs : ∀ c ∈ s, is_separator c = false := by
        intro c hc
        exact not_separator c (fun e => hno (e ▸ hc)) (fun e => hno2 (e ▸ hc))
      rw [suffix_no_separator s hs, SanitizeName_loop_eq s [] (by simp), List.nil_append]

end Packer
